import Mathlib

/-!
Verification development for the Move37 game-engine core.

Machine integers (`u64`) are embedded as `Nat` with explicit truncation
`% 2^64` where left shifts may overflow, and bitwise complement `!x`
embedded as `(2^64 - 1) ^^^ x`.  Loops in the source are embedded as
fuel-based structural recursion, with the fuel taken from the source's own
explicit iteration bounds where the source has them.
-/

namespace Move37

/-- `2^64 - 1`, the all-ones 64-bit word. -/
def U64MAX : Nat := 2 ^ 64 - 1

/-- Truncating 64-bit left shift, as Rust `<<` on `u64`. -/
def shl64 (x n : Nat) : Nat := (x <<< n) % 2 ^ 64

/-- Bitwise complement of a 64-bit word, as Rust `!x` on `u64`. -/
def not64 (x : Nat) : Nat := U64MAX ^^^ x

/-- `bitboard.rs` `BOARD_SIZE`. -/
def BOARD_SIZE : Nat := 7

/-- `bitboard.rs` `CELL_COUNT`. -/
def CELL_COUNT : Nat := 49

/-- `bitboard.rs` `pos_to_mask`. -/
def pos_to_mask (r c : Nat) : Nat :=
  if r ≥ BOARD_SIZE ∨ c ≥ BOARD_SIZE then 0
  else shl64 1 (r * BOARD_SIZE + c)

/-- `bitboard.rs` `index_to_pos`. -/
def index_to_pos (idx : Nat) : Nat × Nat := (idx / BOARD_SIZE, idx % BOARD_SIZE)

/-- `bitboard.rs` `pos_to_index`. -/
def pos_to_index (r c : Nat) : Nat := r * BOARD_SIZE + c

/-- `bitboard.rs` `get_col_0_mask`: bits 0,7,14,21,28,35,42. -/
def MASK_COL_0 : Nat :=
  (1 <<< 0) ||| (1 <<< 7) ||| (1 <<< 14) ||| (1 <<< 21) |||
  (1 <<< 28) ||| (1 <<< 35) ||| (1 <<< 42)

/-- `bitboard.rs` `get_col_6_mask`: bits 6,13,20,27,34,41,48. -/
def MASK_COL_6 : Nat :=
  (1 <<< 6) ||| (1 <<< 13) ||| (1 <<< 20) ||| (1 <<< 27) |||
  (1 <<< 34) ||| (1 <<< 41) ||| (1 <<< 48)

/-- `bitboard.rs` `NOT_COL_0 = !MASK_COL_0` (64-bit complement). -/
def NOT_COL_0 : Nat := not64 MASK_COL_0

/-- `bitboard.rs` `NOT_COL_6 = !MASK_COL_6` (64-bit complement). -/
def NOT_COL_6 : Nat := not64 MASK_COL_6

/-- `bitboard.rs` `count_ones`: population count of a 64-bit word. -/
def count_ones (x : Nat) : Nat :=
  ((List.range 64).filter (fun i => x.testBit i)).length

/-- One direction of `expand_queen_bit_parallel`: iterate
`fill = step fill; if fill == 0 break; expanded |= fill` for at most
`fuel` rounds (the source uses 6). -/
def dirFill (step : Nat → Nat) : Nat → Nat → Nat → Nat
  | 0, _, acc => acc
  | fuel + 1, fill, acc =>
    let fill' := step fill
    if fill' = 0 then acc else dirFill step fuel fill' (acc ||| fill')

/-- `bitboard.rs` `expand_queen_bit_parallel`: bit-parallel queen-move
expansion in 8 directions with column-wrap masking. -/
def expand_queen_bit_parallel (source blocked : Nat) : Nat :=
  let empty := not64 blocked
  let e0 := (0 : Nat)
  -- North: << 7
  let e1 := dirFill (fun fill => shl64 fill 7 &&& empty) 6 source e0
  -- South: >> 7
  let e2 := dirFill (fun fill => (fill >>> 7) &&& empty) 6 source e1
  -- East: << 1, avoiding wrap from col 6 to col 0
  let e3 := dirFill (fun fill => shl64 fill 1 &&& NOT_COL_0 &&& empty) 6 source e2
  -- West: >> 1, avoiding wrap from col 0 to col 6
  let e4 := dirFill (fun fill => (fill >>> 1) &&& NOT_COL_6 &&& empty) 6 source e3
  -- NE: << 8
  let e5 := dirFill (fun fill => shl64 fill 8 &&& NOT_COL_0 &&& empty) 6 source e4
  -- NW: << 6
  let e6 := dirFill (fun fill => shl64 fill 6 &&& NOT_COL_6 &&& empty) 6 source e5
  -- SE: >> 6
  let e7 := dirFill (fun fill => (fill >>> 6) &&& NOT_COL_0 &&& empty) 6 source e6
  -- SW: >> 8
  let e8 := dirFill (fun fill => (fill >>> 8) &&& NOT_COL_6 &&& empty) 6 source e7
  e8

/-- `bitboard.rs` `get_queen_moves`. -/
def get_queen_moves (r c : Nat) (blocked : Nat) : Nat :=
  expand_queen_bit_parallel (shl64 1 (r * BOARD_SIZE + c)) blocked

/-- `u64::trailing_zeros`: index of the lowest set bit of a 64-bit word
(64 when the word is zero). -/
def trailing_zeros (x : Nat) : Nat :=
  ((List.range 64).find? (fun i => x.testBit i)).getD 64

/-- `bitboard.rs` `safe_get_position_index`: index of the lowest set bit,
`none` if the board is empty or the index is out of bounds. -/
def safe_get_position_index (bitboard : Nat) : Option Nat :=
  if bitboard = 0 then none
  else
    let idx := trailing_zeros bitboard
    if idx ≥ CELL_COUNT then none else some idx

/-- `partition.rs` `PartitionResult`. -/
structure PartitionResult where
  is_partitioned : Bool
  player_region_size : Nat
  ai_region_size : Nat
  player_region : Nat
  ai_region : Nat
  deriving Repr, DecidableEq

/-- One pass of the inner loop of `queen_flood_fill`: for every set bit of
`frontier` (the source iterates them in increasing order) accumulate
`get_queen_moves(r, c, blocked | reachable) & !reachable`; `reachable` is
constant throughout the pass. -/
def floodPass (blocked reachable frontier : Nat) : Nat :=
  (List.range 64).foldl
    (fun nf idx =>
      if frontier.testBit idx then
        nf ||| (get_queen_moves (index_to_pos idx).1 (index_to_pos idx).2
                  (blocked ||| reachable) &&& not64 reachable)
      else nf) 0

/-- The outer loop of `queen_flood_fill`; the source runs it while
`frontier != 0 && iterations < 50` (`max_iterations = 50`). -/
def floodLoop (blocked : Nat) : Nat → Nat → Nat → Nat
  | 0, reachable, _ => reachable
  | fuel + 1, reachable, frontier =>
    if frontier = 0 then reachable
    else
      let nf := floodPass blocked reachable frontier
      floodLoop blocked fuel (reachable ||| nf) nf

/-- `partition.rs` `queen_flood_fill`. -/
def queen_flood_fill (start_pos : Nat × Nat) (blocked : Nat) : Nat :=
  let start_mask := shl64 1 (pos_to_index start_pos.1 start_pos.2)
  floodLoop blocked 50 start_mask start_mask

/-- `partition.rs` `detect_partition_bitboard`. -/
def detect_partition_bitboard (player_pos ai_pos : Nat × Nat) (destroyed : Nat) :
    PartitionResult :=
  let player_idx := pos_to_index player_pos.1 player_pos.2
  let ai_idx := pos_to_index ai_pos.1 ai_pos.2
  let player_mask := shl64 1 player_idx
  let ai_mask := shl64 1 ai_idx
  let blocked_for_player := destroyed ||| ai_mask
  let player_reachable := queen_flood_fill player_pos blocked_for_player
  let is_partitioned := player_reachable &&& ai_mask = 0
  if ¬is_partitioned then
    { is_partitioned := false, player_region_size := 0, ai_region_size := 0,
      player_region := 0, ai_region := 0 }
  else
    let player_region := player_reachable ||| player_mask
    let blocked_for_ai := destroyed ||| player_mask
    let ai_reachable := queen_flood_fill ai_pos blocked_for_ai
    let ai_region := ai_reachable ||| ai_mask
    { is_partitioned := true,
      player_region_size := count_ones player_region,
      ai_region_size := count_ones ai_region,
      player_region := player_region,
      ai_region := ai_region }

/-! ### Reference queen-move generator, modelled from the spec

The spec (section 4.1) requires the bit-parallel expansion to be validated
against 8-directional ray casting that stops at the first blocked cell and
at the board edge.  The ray-casting form is not present in this crate (it
lives in the TypeScript half the comments cite), so it is modelled here
from the spec's words. -/

/-- One ray walk: starting one step away from `(r, c)` in direction
`(dr, dc)`, accumulate cells until the board edge or the first blocked
cell.  Modelled from the spec: "8-directional ray casting stopping at the
first blocked cell" (and at the board edge). -/
def rayWalk (blocked : Nat) (dr dc : Int) : Nat → Int → Int → Nat
  | 0, _, _ => 0
  | fuel + 1, r, c =>
    if 0 ≤ r ∧ r < 7 ∧ 0 ≤ c ∧ c < 7 then
      let idx := (r * 7 + c).toNat
      if blocked.testBit idx then 0
      else (1 <<< idx) ||| rayWalk blocked dr dc fuel (r + dr) (c + dc)
    else 0

/-- Modelled from the spec: the move set produced by 8-directional ray
casting from `(r, c)`, stopping at the first blocked cell and at the board
edge. -/
def ray_cast_queen_moves (r c : Nat) (blocked : Nat) : Nat :=
  let dirs : List (Int × Int) :=
    [(-1, -1), (-1, 0), (-1, 1), (0, -1), (0, 1), (1, -1), (1, 0), (1, 1)]
  dirs.foldl
    (fun acc d => acc ||| rayWalk blocked d.1 d.2 7 ((r : Int) + d.1) ((c : Int) + d.2))
    0

/-! ### Game B state (`board.rs`) -/

/-- `board.rs` `GameState`. -/
structure GameStateB where
  player : Nat
  ai : Nat
  destroyed : Nat
  deriving Repr, DecidableEq

/-- `board.rs` `Move`. -/
structure Move where
  fromPos : Nat × Nat
  toPos : Nat × Nat
  destroy : Nat × Nat
  score : Int
  deriving Repr, DecidableEq

/-- `board.rs` `GameState::from_raw`: clamps the two piece coordinates to
the board and folds the `[r1, c1, r2, c2, ...]` destroyed array into a
mask (`chunks(2)` drops a trailing odd element). -/
def from_raw (player_r player_c ai_r ai_c : Nat) (destroyed : List (Nat × Nat)) :
    GameStateB :=
  let player_r := min player_r (BOARD_SIZE - 1)
  let player_c := min player_c (BOARD_SIZE - 1)
  let ai_r := min ai_r (BOARD_SIZE - 1)
  let ai_c := min ai_c (BOARD_SIZE - 1)
  let d_mask := destroyed.foldl (fun m p => m ||| pos_to_mask p.1 p.2) 0
  { player := pos_to_mask player_r player_c,
    ai := pos_to_mask ai_r ai_c,
    destroyed := d_mask }

/-- `board.rs` `GameState::get_valid_moves`: queen moves of the side to
move, blocked by destroyed cells and the opponent's piece; one `Move` per
set bit of the move mask, in increasing bit order. -/
def get_valid_moves (st : GameStateB) (is_ai : Bool) : List Move :=
  let my_pos := if is_ai then st.ai else st.player
  let opp_pos := if is_ai then st.player else st.ai
  let blocked := st.destroyed ||| opp_pos
  let my_idx := trailing_zeros my_pos
  let r := (index_to_pos my_idx).1
  let c := (index_to_pos my_idx).2
  let move_mask := get_queen_moves r c blocked
  ((List.range 64).filter (fun i => move_mask.testBit i)).map
    (fun i => { fromPos := (r, c), toPos := index_to_pos i, destroy := (0, 0), score := 0 })

/-! ### Destroy-candidate generation (`search.rs`) -/

/-- `search.rs` `manhattan_distance`. -/
def manhattan_distance (a b : Nat × Nat) : Int :=
  ((a.1 : Int) - b.1).natAbs + ((a.2 : Int) - b.2).natAbs

/-- `search.rs` `score_destroy_position`. -/
def score_destroy_position (pos : Nat × Nat) (target_mobility : Nat)
    (our_new_pos opponent_pos : Nat × Nat) : Int :=
  let score : Int := if target_mobility = 0 then 20000 else 0
  let pos_idx := pos_to_index pos.1 pos.2
  let pos_mask := shl64 1 pos_idx
  let blocks_opponent := target_mobility &&& pos_mask ≠ 0
  let score := score +
    (if blocks_opponent then
      (if count_ones target_mobility = 1 then 10000 else 50)
    else 0)
  let dist_to_opponent := manhattan_distance pos opponent_pos
  let score := score +
    (if dist_to_opponent = 1 then 30 else if dist_to_opponent = 2 then 15 else 0)
  let dist_to_self := manhattan_distance pos our_new_pos
  let score := score + (if dist_to_self = 1 then -50 else 0)
  let center_dist := ((pos.1 : Int) - 3).natAbs + ((pos.2 : Int) - 3).natAbs
  score + (6 - (center_dist : Int)) * 2

/-- `search.rs` `get_destroy_candidates_advanced`: scores every empty cell
(the board mask excluding destroyed cells, both pieces, and the move's
destination), sorts descending by score (`sort_unstable_by` is embedded as
a merge sort, one of its admissible outcomes) and keeps the top
`candidate_count`. -/
def get_destroy_candidates_advanced (st : GameStateB) (mv : Move)
    (maximizing : Bool) (candidate_count : Nat) : List (Nat × Nat) :=
  let occupied := st.destroyed ||| st.player ||| st.ai ||| pos_to_mask mv.toPos.1 mv.toPos.2
  let target_pos := if maximizing then st.player else st.ai
  match safe_get_position_index target_pos with
  | none => []
  | some target_idx =>
    let tr := (index_to_pos target_idx).1
    let tc := (index_to_pos target_idx).2
    let target_mobility := get_queen_moves tr tc occupied
    let full_board := (1 <<< CELL_COUNT) - 1
    let empty := full_board &&& not64 occupied
    let candidates :=
      ((List.range 64).filter (fun i => empty.testBit i)).map
        (fun i =>
          (index_to_pos i,
           score_destroy_position (index_to_pos i) target_mobility mv.toPos (tr, tc)))
    let sorted := candidates.mergeSort (fun a b => a.2 ≥ b.2)
    (sorted.take candidate_count).map (fun pc => pc.1)

/-! ### The mover-mobility terminal check and null-move guard
(`search_advanced.rs` lines 403–457) -/

/-- `search_advanced.rs` lines 405–414: the mover's coordinates (with the
`unwrap_or` defaults 48 / 0) and its bit-parallel mobility count, computed
against `blocked = destroyed | player | ai`. -/
def mover_mobility (st : GameStateB) (maximizing : Bool) : Nat :=
  let idx :=
    if maximizing then (safe_get_position_index st.ai).getD 48
    else (safe_get_position_index st.player).getD 0
  let r := (index_to_pos idx).1
  let c := (index_to_pos idx).2
  let blocked := st.destroyed ||| st.player ||| st.ai
  count_ones (get_queen_moves r c blocked)

/-- `search_advanced.rs` line 424: the terminal score returned when the
mover's mobility count is zero. -/
def terminal_loss_score (depth : Nat) : Int := -100000 - (depth : Int) * 100

/-- `search_advanced.rs` lines 449–457: the exact condition under which the
null-move probe is entered (`use_null_move` is taken as enabled). -/
def null_move_allowed (st : GameStateB) (depth : Nat) (maximizing : Bool) : Bool :=
  if depth ≥ 3 ∧ maximizing then
    let idx :=
      if maximizing then (safe_get_position_index st.ai).getD 48
      else (safe_get_position_index st.player).getD 0
    let r := (index_to_pos idx).1
    let c := (index_to_pos idx).2
    let blocked := st.destroyed ||| st.player ||| st.ai
    let ai_mobility := count_ones (get_queen_moves r c blocked)
    let free_cells := count_ones (not64 blocked)
    decide (ai_mobility > 3 ∧ free_cells > 10)
  else false

/-- Free cells among the 49 board cells (what the null-move comment in the
source, and the spec, mean by "free cells"): board cells that are neither
destroyed nor occupied by a piece. -/
def free_board_cells (st : GameStateB) : Nat :=
  count_ones (((1 <<< CELL_COUNT) - 1) &&& not64 (st.destroyed ||| st.player ||| st.ai))

/-! ### Voronoi territory analysis (`voronoi.rs`)

`f32` arithmetic in the evaluator is idealised as exact rational
arithmetic (`ℚ`); every float operation the embedded paths perform is
addition/multiplication of small integers and short decimal constants. -/

/-- `voronoi.rs` `VoronoiResult`. -/
structure VoronoiResult where
  player_territory : Nat
  ai_territory : Nat
  contested : Nat
  player_count : Nat
  ai_count : Nat
  contested_count : Nat
  deriving Repr, DecidableEq

/-- `voronoi.rs` `expand_frontier_optimized`. -/
def expand_frontier_optimized (frontier blocked visited : Nat) : Nat :=
  expand_queen_bit_parallel frontier blocked &&& not64 visited

/-- Loop state of `calculate_voronoi_optimized`:
`(player_frontier, ai_frontier, player_visited, ai_visited,
player_territory, ai_territory, contested)`. -/
structure VoronoiLoopState where
  pf : Nat
  af : Nat
  pv : Nat
  av : Nat
  pt : Nat
  at' : Nat
  ct : Nat

/-- The dual-frontier loop of `calculate_voronoi_optimized`; the source
runs it while either frontier is nonempty and `depth < 20`
(`max_depth = 20`). -/
def voronoiLoop (blocked : Nat) : Nat → VoronoiLoopState → VoronoiLoopState
  | 0, s => s
  | fuel + 1, s =>
    if s.pf = 0 ∧ s.af = 0 then s
    else
      let npf := if s.pf ≠ 0 then expand_frontier_optimized s.pf blocked s.pv else 0
      let naf := if s.af ≠ 0 then expand_frontier_optimized s.af blocked s.av else 0
      let player_only := npf &&& not64 s.av &&& not64 naf
      let ai_only := naf &&& not64 s.pv &&& not64 npf
      let contested_new := npf &&& naf
      voronoiLoop blocked fuel
        { pf := npf, af := naf,
          pv := s.pv ||| npf, av := s.av ||| naf,
          pt := s.pt ||| player_only, at' := s.at' ||| ai_only,
          ct := s.ct ||| contested_new }

/-- `voronoi.rs` `calculate_voronoi_optimized`. -/
def calculate_voronoi_optimized (player_pos ai_pos : Nat × Nat) (destroyed : Nat) :
    VoronoiResult :=
  let player_mask := shl64 1 (pos_to_index player_pos.1 player_pos.2)
  let ai_mask := shl64 1 (pos_to_index ai_pos.1 ai_pos.2)
  let blocked := destroyed ||| player_mask ||| ai_mask
  let s := voronoiLoop blocked 20
    { pf := player_mask, af := ai_mask, pv := player_mask, av := ai_mask,
      pt := 0, at' := 0, ct := 0 }
  { player_territory := s.pt, ai_territory := s.at', contested := s.ct,
    player_count := count_ones s.pt, ai_count := count_ones s.at',
    contested_count := count_ones s.ct }

/-! ### Advanced evaluation (`eval.rs`) -/

/-- `eval.rs` `EvalWeights` (`f32` fields idealised as `ℚ`). -/
structure EvalWeights where
  territory : ℚ
  mobility : ℚ
  mobility_potential : ℚ
  center_control : ℚ
  corner_avoidance : ℚ
  partition_advantage : ℚ
  critical_cells : ℚ
  openness : ℚ
  parity : ℚ
  trap : ℚ
  effective_mobility : ℚ
  deriving Repr, DecidableEq

/-- `eval.rs` `EvalComponents` (`f32` fields idealised as `ℚ`). -/
structure EvalComponents where
  territory : ℚ
  mobility : ℚ
  mobility_potential : ℚ
  center_control : ℚ
  corner_avoidance : ℚ
  partition_advantage : ℚ
  critical_cells : ℚ
  openness : ℚ
  parity : ℚ
  trap : ℚ
  effective_mobility : ℚ
  deriving Repr, DecidableEq

/-- The all-zero `EvalComponents` record returned on the defensive
empty-mask paths of `evaluate_advanced`. -/
def EvalComponents.zero : EvalComponents :=
  { territory := 0, mobility := 0, mobility_potential := 0,
    center_control := 0, corner_avoidance := 0, partition_advantage := 0,
    critical_cells := 0, openness := 0, parity := 0, trap := 0,
    effective_mobility := 0 }

/-- `eval.rs` `CENTER_DISTANCE` (Manhattan distance from `(3,3)`). -/
def CENTER_DISTANCE : List Int :=
  [6, 5, 4, 3, 4, 5, 6,
   5, 4, 3, 2, 3, 4, 5,
   4, 3, 2, 1, 2, 3, 4,
   3, 2, 1, 0, 1, 2, 3,
   4, 3, 2, 1, 2, 3, 4,
   5, 4, 3, 2, 3, 4, 5,
   6, 5, 4, 3, 4, 5, 6]

/-- `eval.rs` `CORNER_PROXIMITY` (distance to nearest corner). -/
def CORNER_PROXIMITY : List Int :=
  [0, 1, 2, 3, 4, 5, 6,
   1, 1, 2, 3, 4, 5, 5,
   2, 2, 2, 3, 4, 4, 4,
   3, 3, 3, 3, 3, 3, 3,
   4, 4, 4, 3, 2, 2, 2,
   5, 5, 4, 3, 2, 1, 1,
   6, 5, 4, 3, 2, 1, 0]

/-- `partition.rs` `would_cause_partition`. -/
def would_cause_partition (player_pos ai_pos : Nat × Nat) (destroyed : Nat)
    (destroy_pos : Nat × Nat) : Bool :=
  let destroy_mask := shl64 1 (pos_to_index destroy_pos.1 destroy_pos.2)
  (detect_partition_bitboard player_pos ai_pos (destroyed ||| destroy_mask)).is_partitioned

/-- `eval.rs` `effective_mobility`: number of moves whose destination
still has at least 2 follow-up moves. -/
def effective_mobility (pos_mask blocked : Nat) : Int :=
  match safe_get_position_index pos_mask with
  | none => 0
  | some pos_idx =>
    let r := (index_to_pos pos_idx).1
    let c := (index_to_pos pos_idx).2
    let moves := get_queen_moves r c blocked
    ((List.range 64).filter (fun idx =>
      moves.testBit idx &&
      let nr := (index_to_pos idx).1
      let nc := (index_to_pos idx).2
      let new_mask := shl64 1 idx
      let future_blocked := (blocked ^^^ pos_mask) ||| new_mask
      decide (count_ones (get_queen_moves nr nc future_blocked) ≥ 2))).length

/-- `eval.rs` `calculate_mobility_potential` (2-move lookahead). -/
def calculate_mobility_potential (st : GameStateB) (blocked : Nat) : ℚ :=
  match safe_get_position_index st.player with
  | none => 0
  | some player_idx =>
  match safe_get_position_index st.ai with
  | none => 0
  | some ai_idx =>
    let player_pos := index_to_pos player_idx
    let ai_pos := index_to_pos ai_idx
    let player_moves_1 := get_queen_moves player_pos.1 player_pos.2 blocked
    let ai_moves_1 := get_queen_moves ai_pos.1 ai_pos.2 blocked
    let player_moves_2 :=
      ((List.range 64).filter (fun i => player_moves_1.testBit i)).foldl
        (fun acc i =>
          acc ||| get_queen_moves (index_to_pos i).1 (index_to_pos i).2
                    (blocked ||| shl64 1 player_idx)) 0
    let player_moves_2 := player_moves_2 &&& not64 player_moves_1
    let ai_moves_2 :=
      ((List.range 64).filter (fun i => ai_moves_1.testBit i)).foldl
        (fun acc i =>
          acc ||| get_queen_moves (index_to_pos i).1 (index_to_pos i).2
                    (blocked ||| shl64 1 ai_idx)) 0
    let ai_moves_2 := ai_moves_2 &&& not64 ai_moves_1
    let player_potential :=
      (count_ones player_moves_1 : ℚ) + (count_ones player_moves_2 : ℚ) * 0.5
    let ai_potential :=
      (count_ones ai_moves_1 : ℚ) + (count_ones ai_moves_2 : ℚ) * 0.5
    ai_potential - player_potential

/-- `eval.rs` `find_critical_cells_uncached`: empty cells in the expanded
bounding box between the two pieces whose destruction would "cause
partition".  The thread-local cache of `find_critical_cells` is embedded
as the always-miss (uncached) computation it stores. -/
def find_critical_cells (st : GameStateB) (blocked : Nat) : List Nat :=
  match safe_get_position_index st.player with
  | none => []
  | some player_idx =>
  match safe_get_position_index st.ai with
  | none => []
  | some ai_idx =>
    let player_pos := index_to_pos player_idx
    let ai_pos := index_to_pos ai_idx
    let min_r := min player_pos.1 ai_pos.1
    let max_r := max player_pos.1 ai_pos.1
    let min_c := min player_pos.2 ai_pos.2
    let max_c := max player_pos.2 ai_pos.2
    let search_min_r := min_r - 1
    let search_max_r := min (max_r + 1) 6
    let search_min_c := min_c - 1
    let search_max_c := min (max_c + 1) 6
    ((List.range (search_max_r + 1)).filter (fun r => search_min_r ≤ r)).flatMap
      (fun r =>
        (((List.range (search_max_c + 1)).filter (fun c => search_min_c ≤ c)).filterMap
          (fun c =>
            let idx := pos_to_index r c
            if blocked &&& (shl64 1 idx) ≠ 0 then none
            else if would_cause_partition player_pos ai_pos st.destroyed (r, c)
            then some idx else none)))

/-- `eval.rs` `evaluate_partition_threat`. -/
def evaluate_partition_threat (st : GameStateB) (critical_cells : List Nat) : ℚ :=
  if critical_cells.isEmpty then 0
  else
    match safe_get_position_index st.player with
    | none => 0
    | some player_idx =>
    match safe_get_position_index st.ai with
    | none => 0
    | some ai_idx =>
      let player_pos := index_to_pos player_idx
      let ai_pos := index_to_pos ai_idx
      let best_advantage : ℚ :=
        critical_cells.foldl
          (fun best idx =>
            let result := detect_partition_bitboard player_pos ai_pos
              (st.destroyed ||| shl64 1 idx)
            if result.is_partitioned then
              max best ((result.ai_region_size : ℚ) - (result.player_region_size : ℚ))
            else best)
          (-1000)
      best_advantage * 0.5

/-- One direction of the walk in `evaluate_openness`: count open cells
until the board edge or the first blocked cell. -/
def opennessWalk (blocked : Nat) (dr dc : Int) : Nat → Int → Int → Nat
  | 0, _, _ => 0
  | fuel + 1, r, c =>
    if 0 ≤ r ∧ r < 7 ∧ 0 ≤ c ∧ c < 7 then
      let idx := (r * 7 + c).toNat
      if blocked &&& (1 <<< idx) = 0 then
        1 + opennessWalk blocked dr dc fuel (r + dr) (c + dc)
      else 0
    else 0

/-- `eval.rs` `evaluate_openness`: total unobstructed ray length in 8
directions around each piece, AI minus player, scaled by 0.3. -/
def evaluate_openness (st : GameStateB) (blocked : Nat) : ℚ :=
  match safe_get_position_index st.player with
  | none => 0
  | some player_idx =>
  match safe_get_position_index st.ai with
  | none => 0
  | some ai_idx =>
    let player_pos := index_to_pos player_idx
    let ai_pos := index_to_pos ai_idx
    let dirs : List (Int × Int) :=
      [(-1, -1), (-1, 0), (-1, 1), (0, -1), (0, 1), (1, -1), (1, 0), (1, 1)]
    let player_openness := dirs.foldl
      (fun acc d =>
        acc + opennessWalk blocked d.1 d.2 7
          ((player_pos.1 : Int) + d.1) ((player_pos.2 : Int) + d.2)) 0
    let ai_openness := dirs.foldl
      (fun acc d =>
        acc + opennessWalk blocked d.1 d.2 7
          ((ai_pos.1 : Int) + d.1) ((ai_pos.2 : Int) + d.2)) 0
    ((ai_openness : ℚ) - (player_openness : ℚ)) * 0.3

/-- Rust `as i32` on an `f32` value (idealised as `ℚ`): truncation toward
zero, saturating at the `i32` range. -/
def f32_as_i32 (q : ℚ) : Int :=
  max (-(2 ^ 31)) (min (2 ^ 31 - 1) (if q ≥ 0 then ⌊q⌋ else ⌈q⌉))

/-- `eval.rs` `evaluate_advanced`: the full 11-component evaluation;
returns the combined `i32` score and the per-component record.  Both
defensive empty-mask paths return `(0, EvalComponents.zero)`. -/
def evaluate_advanced (st : GameStateB) (weights : EvalWeights) :
    Int × EvalComponents :=
  let destroyed_count := count_ones st.destroyed
  let blocked := st.destroyed ||| st.player ||| st.ai
  match safe_get_position_index st.player with
  | none => (0, EvalComponents.zero)
  | some player_idx =>
  match safe_get_position_index st.ai with
  | none => (0, EvalComponents.zero)
  | some ai_idx =>
    let player_pos := index_to_pos player_idx
    let ai_pos := index_to_pos ai_idx
    let partition := detect_partition_bitboard player_pos ai_pos st.destroyed
    let voronoi_triple : ℚ × ℚ × ℚ :=
      if partition.is_partitioned then
        ((partition.ai_region_size : ℚ), (partition.player_region_size : ℚ), 0)
      else
        let voronoi := calculate_voronoi_optimized player_pos ai_pos st.destroyed
        ((voronoi.ai_count : ℚ), (voronoi.player_count : ℚ), (voronoi.contested_count : ℚ))
    let territory_score :=
      (voronoi_triple.1 - voronoi_triple.2.1) + voronoi_triple.2.2 * 0.4
    let ai_moves := get_queen_moves ai_pos.1 ai_pos.2 blocked
    let player_moves := get_queen_moves player_pos.1 player_pos.2 blocked
    let ai_mobility_count := count_ones ai_moves
    let player_mobility_count := count_ones player_moves
    let mobility_score : ℚ := (ai_mobility_count : ℚ) - (player_mobility_count : ℚ)
    let desperation : ℚ × ℚ × ℚ :=
      if ai_mobility_count ≤ 2 then (0.5, 50, 0)
      else (weights.territory, weights.mobility, weights.partition_advantage)
    let w_territory := desperation.1
    let w_mobility := desperation.2.1
    let w_partition := desperation.2.2
    let mobility_potential_score :=
      if ai_mobility_count ≤ 4 ∨ (destroyed_count > 15 ∧ destroyed_count < 35) then
        calculate_mobility_potential st blocked
      else 0
    let ai_center_dist := CENTER_DISTANCE.getD ai_idx 0
    let player_center_dist := CENTER_DISTANCE.getD player_idx 0
    let center_score : ℚ := ((player_center_dist - ai_center_dist : Int) : ℚ)
    let ai_corner_dist := CORNER_PROXIMITY.getD ai_idx 0
    let player_corner_dist := CORNER_PROXIMITY.getD player_idx 0
    let corner_score : ℚ := ((ai_corner_dist - player_corner_dist : Int) : ℚ)
    let partition_score : ℚ :=
      if partition.is_partitioned then
        (((partition.ai_region_size : Int) - (partition.player_region_size : Int)) * 5 : Int)
      else if destroyed_count > 12 then
        let critical_cells := find_critical_cells st blocked
        if ¬critical_cells.isEmpty ∧ critical_cells.length ≤ 3 then
          evaluate_partition_threat st critical_cells
        else 0
      else 0
    let critical_score : ℚ := 0
    let openness_score :=
      if destroyed_count < 20 then evaluate_openness st blocked else 0
    let parity_score : ℚ :=
      if partition.is_partitioned then
        ((partition.ai_region_size % 2 : Nat) : ℚ) -
          ((partition.player_region_size % 2 : Nat) : ℚ)
      else 0
    let trap_score : ℚ :=
      if ai_mobility_count = 1 then -1
      else if player_mobility_count = 1 then 1
      else 0
    let effective_mobility_score : ℚ :=
      if destroyed_count > 30 then
        ((effective_mobility st.ai blocked - effective_mobility st.player blocked : Int) : ℚ)
      else 0
    let components : EvalComponents :=
      { territory := territory_score, mobility := mobility_score,
        mobility_potential := mobility_potential_score,
        center_control := center_score, corner_avoidance := corner_score,
        partition_advantage := partition_score, critical_cells := critical_score,
        openness := openness_score, parity := parity_score, trap := trap_score,
        effective_mobility := effective_mobility_score }
    let score := f32_as_i32 (
      territory_score * w_territory +
      mobility_score * w_mobility +
      mobility_potential_score * weights.mobility_potential +
      center_score * weights.center_control +
      corner_score * weights.corner_avoidance +
      partition_score * w_partition +
      critical_score * weights.critical_cells +
      openness_score * weights.openness +
      parity_score * weights.parity +
      trap_score * weights.trap +
      effective_mobility_score * weights.effective_mobility)
    (score, components)

/-! ### Game A: the Entropy/Hex engine (`entropy/wasm/src/lib.rs`)

`f64` statistics counters are idealised as `ℚ` (they only ever hold small
integer counts, exactly representable in `f64`); the selection-formula
floats are idealised as `ℝ` where transcendental functions appear. -/

/-- `lib.rs` board constants. -/
def BOARD_ROWS : Nat := 11

def BOARD_COLS : Nat := 11

def NUM_CELLS : Nat := BOARD_ROWS * BOARD_COLS

def VIRTUAL_TOP : Nat := NUM_CELLS

def VIRTUAL_BOTTOM : Nat := NUM_CELLS + 1

def VIRTUAL_LEFT : Nat := NUM_CELLS

def VIRTUAL_RIGHT : Nat := NUM_CELLS + 1

/-- `lib.rs` `Player`. -/
inductive PlayerA where
  | none
  | human
  | ai
  deriving Repr, DecidableEq

/-- `lib.rs` `Player::opponent`. -/
def PlayerA.opponent : PlayerA → PlayerA
  | .human => .ai
  | .ai => .human
  | .none => .none

/-- `lib.rs` `EngineConfig`. -/
structure EngineConfig where
  max_simulations : Nat
  playout_heuristic_chance : ℚ
  selection_temperature : ℚ
  deriving Repr, DecidableEq

/-- `lib.rs` `UnionFind` (parent/rank arrays). -/
structure UnionFind where
  parent : List Nat
  rank : List Nat
  deriving Repr, DecidableEq

/-- `lib.rs` `UnionFind::new`. -/
def UnionFind.new (size : Nat) : UnionFind :=
  { parent := List.range size, rank := List.replicate size 0 }

/-- The root-finding loop of `UnionFind::find`
(`while root != parent[root]`), embedded with fuel (the source's loop
terminates because reachable parent arrays are acyclic). -/
def ufRoot (parent : List Nat) : Nat → Nat → Nat
  | 0, root => root
  | fuel + 1, root =>
    if root = parent.getD root 0 then root
    else ufRoot parent fuel (parent.getD root 0)

/-- The path-compression loop of `UnionFind::find`
(`while curr != root { parent[curr] = root }`), embedded with fuel. -/
def ufCompress (root : Nat) : Nat → List Nat → Nat → List Nat
  | 0, parent, _ => parent
  | fuel + 1, parent, curr =>
    if curr = root then parent
    else
      let next := parent.getD curr 0
      ufCompress root fuel (parent.set curr root) next

/-- `lib.rs` `UnionFind::find`: returns the root and the path-compressed
structure. -/
def UnionFind.find (uf : UnionFind) (i : Nat) : Nat × UnionFind :=
  let root := ufRoot uf.parent uf.parent.length i
  (root, { uf with parent := ufCompress root uf.parent.length uf.parent i })

/-- `lib.rs` `UnionFind::union` (union by rank). -/
def UnionFind.union (uf : UnionFind) (i j : Nat) : UnionFind :=
  let ri := uf.find i
  let rj := ri.2.find j
  let root_i := ri.1
  let root_j := rj.1
  let uf := rj.2
  if root_i ≠ root_j then
    if uf.rank.getD root_i 0 < uf.rank.getD root_j 0 then
      { uf with parent := uf.parent.set root_i root_j }
    else if uf.rank.getD root_j 0 < uf.rank.getD root_i 0 then
      { uf with parent := uf.parent.set root_j root_i }
    else
      { parent := uf.parent.set root_j root_i,
        rank := uf.rank.set root_i (uf.rank.getD root_i 0 + 1) }
  else uf

/-- `lib.rs` `UnionFind::connected`. -/
def UnionFind.connected (uf : UnionFind) (i j : Nat) : Bool × UnionFind :=
  let ri := uf.find i
  let rj := ri.2.find j
  (ri.1 = rj.1, rj.2)

/-- `lib.rs` `GameState` (Game A). -/
structure GameStateA where
  board : List PlayerA
  empty_cells : List Nat
  empty_cells_map : List Nat
  uf_human : UnionFind
  uf_ai : UnionFind
  last_move : Option Nat
  turn_count : Nat
  deriving Repr, DecidableEq

/-- `lib.rs` `GameState::get_neighbors`: hex neighbours with row-parity
dependent offsets. -/
def get_neighbors (idx : Nat) : List Nat :=
  let r := idx / BOARD_COLS
  let c := idx % BOARD_COLS
  let offsets : List (Int × Int) :=
    if r % 2 = 0 then
      [(-1, -1), (-1, 0), (0, -1), (0, 1), (1, -1), (1, 0)]
    else
      [(-1, 0), (-1, 1), (0, -1), (0, 1), (1, 0), (1, 1)]
  offsets.filterMap (fun d =>
    let nr := (r : Int) + d.1
    let nc := (c : Int) + d.2
    if 0 ≤ nr ∧ nr < (BOARD_ROWS : Int) ∧ 0 ≤ nc ∧ nc < (BOARD_COLS : Int) then
      some ((nr.toNat) * BOARD_COLS + nc.toNat)
    else Option.none)

/-- `lib.rs` `GameState::init_virtual_connections`: unions every edge cell
with the matching virtual node. -/
def init_virtual_connections (st : GameStateA) : GameStateA :=
  let step := fun (ufs : UnionFind × UnionFind) (rc : Nat × Nat) =>
    let idx := rc.1 * BOARD_COLS + rc.2
    let ufh := ufs.1
    let ufh := if rc.2 = 0 then ufh.union idx VIRTUAL_LEFT else ufh
    let ufh := if rc.2 = BOARD_COLS - 1 then ufh.union idx VIRTUAL_RIGHT else ufh
    let ufa := ufs.2
    let ufa := if rc.1 = 0 then ufa.union idx VIRTUAL_TOP else ufa
    let ufa := if rc.1 = BOARD_ROWS - 1 then ufa.union idx VIRTUAL_BOTTOM else ufa
    (ufh, ufa)
  let ufs := ((List.range BOARD_ROWS).flatMap
    (fun r => (List.range BOARD_COLS).map (fun c => (r, c)))).foldl
    step (st.uf_human, st.uf_ai)
  { st with uf_human := ufs.1, uf_ai := ufs.2 }

/-- `lib.rs` `GameState::new`. -/
def GameStateA.new : GameStateA :=
  init_virtual_connections
    { board := List.replicate NUM_CELLS PlayerA.none,
      empty_cells := List.range NUM_CELLS,
      empty_cells_map := List.range NUM_CELLS,
      uf_human := UnionFind.new (NUM_CELLS + 2),
      uf_ai := UnionFind.new (NUM_CELLS + 2),
      last_move := Option.none,
      turn_count := 0 }

/-- Rust `Vec::swap_remove(i)`: replace element `i` with the last element
and pop the last. -/
def swapRemove (l : List Nat) (i : Nat) : List Nat :=
  (l.set i (l.getD (l.length - 1) 0)).dropLast

/-- `lib.rs` `GameState::make_move`: place a stone, swap-remove the cell
from the empty list (updating the inverse map), union with same-colour
neighbours, bump the turn counter. -/
def make_move (st : GameStateA) (idx : Nat) (player : PlayerA) : GameStateA :=
  let board := st.board.set idx player
  let vec_idx := st.empty_cells_map.getD idx 0
  let last_elem_idx := st.empty_cells.length - 1
  let last_elem := st.empty_cells.getD last_elem_idx 0
  let empty_cells := swapRemove st.empty_cells vec_idx
  let empty_cells_map :=
    if vec_idx ≠ last_elem_idx then st.empty_cells_map.set last_elem vec_idx
    else st.empty_cells_map
  let neighbors := get_neighbors idx
  let uf_human :=
    if player = PlayerA.human then
      neighbors.foldl
        (fun uf n => if board.getD n PlayerA.none = PlayerA.human then uf.union idx n else uf)
        st.uf_human
    else st.uf_human
  let uf_ai :=
    if player = PlayerA.ai then
      neighbors.foldl
        (fun uf n => if board.getD n PlayerA.none = PlayerA.ai then uf.union idx n else uf)
        st.uf_ai
    else st.uf_ai
  { board := board, empty_cells := empty_cells, empty_cells_map := empty_cells_map,
    uf_human := uf_human, uf_ai := uf_ai,
    last_move := some idx, turn_count := st.turn_count + 1 }

/-- `lib.rs` `GameState::check_winner`. -/
def check_winner (st : GameStateA) : PlayerA × GameStateA :=
  let ch := st.uf_human.connected VIRTUAL_LEFT VIRTUAL_RIGHT
  if ch.1 then (PlayerA.human, { st with uf_human := ch.2 })
  else
    let ca := st.uf_ai.connected VIRTUAL_TOP VIRTUAL_BOTTOM
    if ca.1 then (PlayerA.ai, { st with uf_human := ch.2, uf_ai := ca.2 })
    else (PlayerA.none, { st with uf_human := ch.2, uf_ai := ca.2 })

/-- `lib.rs` `GameState::evaluate_bridge_potential`. -/
def evaluate_bridge_potential (st : GameStateA) (idx : Nat) (player : PlayerA) : Int :=
  let neighbors := get_neighbors idx
  let opponent := player.opponent
  let my_neighbors :=
    (neighbors.filter (fun n => st.board.getD n PlayerA.none = player)).length
  let opp_neighbors :=
    (neighbors.filter (fun n => st.board.getD n PlayerA.none = opponent)).length
  (if my_neighbors ≥ 2 then 40 else 0) + (if opp_neighbors ≥ 2 then 60 else 0)

/-- The Game A empty-list/inverse-map coherence invariant: the inverse map
inverts the empty-cell list, every listed cell is on the board, and a cell
is listed exactly when its board entry is `None`. -/
def InvA (st : GameStateA) : Prop :=
  st.board.length = NUM_CELLS ∧
  st.empty_cells_map.length = NUM_CELLS ∧
  (∀ x ∈ st.empty_cells, x < NUM_CELLS) ∧
  (∀ p, p < st.empty_cells.length →
    st.empty_cells_map.getD (st.empty_cells.getD p 0) 0 = p) ∧
  (∀ i, i < NUM_CELLS →
    (st.board.getD i PlayerA.none = PlayerA.none ↔ i ∈ st.empty_cells))

/-- Game A states reachable from `GameState::new` by `make_move` calls
that place a stone (`Human` or `AI`, as at every call site) on an empty
cell. -/
inductive ReachableA : GameStateA → Prop
  | init : ReachableA GameStateA.new
  | step (st : GameStateA) (idx : Nat) (player : PlayerA) (h : ReachableA st)
      (hempty : st.board[idx]? = some PlayerA.none) (hp : player ≠ PlayerA.none) :
      ReachableA (make_move st idx player)

/-! ### The MCTS arena (`lib.rs` `MCTSNode`, `MCTSEngine`) -/

/-- `lib.rs` `MCTSNode` (`f64` counters idealised as `ℚ`). -/
structure MCTSNode where
  move_idx : Option Nat
  parent : Option Nat
  children : List Nat
  wins : ℚ
  visits : ℚ
  rave_wins : ℚ
  rave_visits : ℚ
  untried_moves : List Nat
  player : PlayerA
  deriving Repr, DecidableEq

instance : Inhabited MCTSNode :=
  ⟨{ move_idx := Option.none, parent := Option.none, children := [],
     wins := 0, visits := 0, rave_wins := 0, rave_visits := 0,
     untried_moves := [], player := PlayerA.none }⟩

/-- `lib.rs` `MCTSEngine`. -/
structure MCTSEngine where
  nodes : List MCTSNode
  root_state : GameStateA
  config : EngineConfig

/-- `lib.rs` `MCTSEngine::new`. -/
def MCTSEngine.new (state : GameStateA) (player : PlayerA) (config : EngineConfig) :
    MCTSEngine :=
  { nodes := [{ move_idx := Option.none, parent := Option.none, children := [],
                wins := 0, visits := 0, rave_wins := 0, rave_visits := 0,
                untried_moves := state.empty_cells,
                player := player.opponent }],
    root_state := state, config := config }

/-- The sampling loop of `MCTSEngine::expand`: `sample_count` rounds of
`rng.gen_range(0..len)` (the oracle `rng`'s output reduced modulo the
length, as `gen_range` guarantees), keeping the index with the best
heuristic score. -/
def expandSampleLoop (st : GameStateA) (untried : List Nat)
    (current_player : PlayerA) (rng : Nat → Nat) :
    Nat → Nat → Int → Nat → Nat
  | 0, best_idx, _, _ => best_idx
  | fuel + 1, best_idx, best_score, t =>
    let idx := rng t % untried.length
    let m := untried.getD idx 0
    let r : Int := (m / BOARD_COLS : Nat)
    let c : Int := (m % BOARD_COLS : Nat)
    let center_r : Int := (BOARD_ROWS : Int) / 2
    let center_c : Int := (BOARD_COLS : Int) / 2
    let dist_from_center := (r - center_r).natAbs + (c - center_c).natAbs
    let score : Int := -(dist_from_center : Int) * 2 +
      evaluate_bridge_potential st m current_player +
      (match st.last_move with
       | Option.none => 0
       | some last =>
         let lr : Int := (last / BOARD_COLS : Nat)
         let lc : Int := (last % BOARD_COLS : Nat)
         if (r - lr).natAbs + (c - lc).natAbs ≤ 3 then 20 else 0)
    if score > best_score then expandSampleLoop st untried current_player rng fuel idx score (t + 1)
    else expandSampleLoop st untried current_player rng fuel best_idx best_score (t + 1)

/-- `lib.rs` `MCTSEngine::expand`: samples up to 15 untried moves, keeps
the best under the cheap heuristic, removes it, plays it on the state and
materialises one child node.  Returns the engine, the advanced state and
the index of the (possibly unchanged) node. -/
def MCTSEngine.expand (eng : MCTSEngine) (rng : Nat → Nat) (node_idx : Nat)
    (state : GameStateA) : MCTSEngine × GameStateA × Nat :=
  let node := eng.nodes.getD node_idx default
  if node.untried_moves.isEmpty then (eng, state, node_idx)
  else
    let current_player := node.player.opponent
    let sample_count := min 15 node.untried_moves.length
    let best_idx_in_untried :=
      expandSampleLoop state node.untried_moves current_player rng
        sample_count 0 (-10000) 0
    let move_idx := node.untried_moves.getD best_idx_in_untried 0
    let untried' := swapRemove node.untried_moves best_idx_in_untried
    let state' := make_move state move_idx current_player
    let new_node : MCTSNode :=
      { move_idx := some move_idx, parent := some node_idx, children := [],
        wins := 0, visits := 0, rave_wins := 0, rave_visits := 0,
        untried_moves := state'.empty_cells, player := current_player }
    let nodes₁ := eng.nodes.set node_idx { node with untried_moves := untried' }
    let new_node_idx := nodes₁.length
    let nodes₂ := nodes₁ ++ [new_node]
    let parent_node := nodes₂.getD node_idx default
    let nodes₃ := nodes₂.set node_idx
      { parent_node with children := parent_node.children ++ [new_node_idx] }
    ({ eng with nodes := nodes₃ }, state', new_node_idx)

/-- The body of one `MCTSEngine::backpropagate` loop iteration: bump the
visit counter, the win counter when the node's mover is the winner, and
the RAVE counters when the node's own move occurs in the winner's move
set. -/
def backpropUpdate (node : MCTSNode) (winner : PlayerA) (winner_moves : List Nat) :
    MCTSNode :=
  let rave_hit : Bool :=
    match node.move_idx with
    | some m => decide (m ∈ winner_moves)
    | Option.none => false
  { node with
    visits := node.visits + 1,
    wins := if node.player = winner then node.wins + 1 else node.wins,
    rave_visits := if rave_hit then node.rave_visits + 1 else node.rave_visits,
    rave_wins :=
      if rave_hit ∧ node.player = winner then node.rave_wins + 1 else node.rave_wins }

/-- `lib.rs` `MCTSEngine::backpropagate`: walk the parent chain from
`node_idx` to the root, applying `backpropUpdate` at every node.  The
source's `while let` loop is embedded with fuel; for every reachable arena
the chain strictly descends, so `nodes.length` fuel is never exhausted. -/
def backpropagateNodes (winner : PlayerA) (winner_moves : List Nat) :
    Nat → List MCTSNode → Nat → List MCTSNode
  | 0, nodes, _ => nodes
  | fuel + 1, nodes, idx =>
    let node := nodes.getD idx default
    let nodes' := nodes.set idx (backpropUpdate node winner winner_moves)
    match node.parent with
    | Option.none => nodes'
    | some p => backpropagateNodes winner winner_moves fuel nodes' p

/-- `lib.rs` `MCTSEngine::backpropagate` at the engine level. -/
def MCTSEngine.backpropagate (eng : MCTSEngine) (node_idx : Nat) (winner : PlayerA)
    (winner_moves : List Nat) : MCTSEngine :=
  { eng with nodes :=
      backpropagateNodes winner winner_moves eng.nodes.length eng.nodes node_idx }

/-- The parent chain from `idx` toward the root, cut off by fuel. -/
def parentChain (nodes : List MCTSNode) : Nat → Nat → List Nat
  | 0, idx => [idx]
  | fuel + 1, idx =>
    idx :: (match (nodes.getD idx default).parent with
            | Option.none => []
            | some p => parentChain nodes fuel p)

/-- The arena well-formedness invariant: the root (index 0) has no parent,
every other node's parent index is strictly smaller than its own index,
and every stored child index is a valid index into the node array. -/
def ArenaWF (nodes : List MCTSNode) : Prop :=
  nodes ≠ [] ∧ (nodes.getD 0 default).parent = Option.none ∧
  (∀ k, 0 < k → k < nodes.length →
    ∃ p, (nodes.getD k default).parent = some p ∧ p < k) ∧
  (∀ k, k < nodes.length → ∀ c ∈ (nodes.getD k default).children, c < nodes.length)

/-- MCTS engines reachable from `MCTSEngine::new` by the node-array
mutations the search loop performs (`expand` and `backpropagate`; the
selection walk does not modify the arena). -/
inductive ReachableEngine : MCTSEngine → Prop
  | init (state : GameStateA) (player : PlayerA) (config : EngineConfig) :
      ReachableEngine (MCTSEngine.new state player config)
  | expand (eng : MCTSEngine) (rng : Nat → Nat) (node_idx : Nat) (state : GameStateA)
      (h : ReachableEngine eng) (hidx : node_idx < eng.nodes.length) :
      ReachableEngine (eng.expand rng node_idx state).1
  | backprop (eng : MCTSEngine) (node_idx : Nat) (winner : PlayerA)
      (winner_moves : List Nat) (h : ReachableEngine eng)
      (hidx : node_idx < eng.nodes.length) :
      ReachableEngine (eng.backpropagate node_idx winner winner_moves)

/-! ### MCTS selection scoring (`lib.rs` `MCTSEngine::search`, selection) -/

/-- The per-child blended RAVE/UCT score of the selection loop (`f64`
idealised as `ℝ`; `rave_const = 300.0` at the call site). -/
noncomputable def uctScore (rave_const : ℝ) (child : MCTSNode) (log_visits : ℝ) : ℝ :=
  let uct_exploit : ℝ :=
    if (child.visits : ℝ) > 0 then (child.wins : ℝ) / (child.visits : ℝ) else 0.5
  let uct_explore : ℝ :=
    if (child.visits : ℝ) > 0 then 1 * Real.sqrt (log_visits / (child.visits : ℝ)) else 1
  let rave_exploit : ℝ :=
    if (child.rave_visits : ℝ) > 0 then (child.rave_wins : ℝ) / (child.rave_visits : ℝ)
    else 0.5
  let beta : ℝ :=
    if (child.rave_visits : ℝ) > 0 then
      rave_const / (rave_const + (child.visits : ℝ) + (child.rave_visits : ℝ) * 0.1)
    else 0
  (1 - beta) * uct_exploit + beta * rave_exploit + uct_explore

/-- One iteration of the selection loop: keep the child whose score
strictly exceeds the best so far.  The source's `-f64::INFINITY` initial
best is embedded as `Option.none` (strictly below every real score). -/
noncomputable def selectStep (nodes : List MCTSNode) (log_visits : ℝ)
    (best : Nat × Option ℝ) (c_idx : Nat) : Nat × Option ℝ :=
  let score := uctScore 300 (nodes.getD c_idx default) log_visits
  match best.2 with
  | Option.none => (c_idx, some score)
  | some b => if score > b then (c_idx, some score) else best

/-- The selection loop over a node's children (`best_child` of the
source's selection phase). -/
noncomputable def selectChild (nodes : List MCTSNode) (log_visits : ℝ)
    (children : List Nat) : Nat :=
  (children.foldl (selectStep nodes log_visits)
    ((0 : Nat), (Option.none : Option ℝ))).1

/-- The claim's selection formula, modelled from the spec's words:
`(1-β)·(wins/visits) + β·(rave_wins/rave_visits) +
C·sqrt(ln(parent.visits)/visits)` with `β = K/(K+visits)`. -/
noncomputable def specUctScore (K C : ℝ) (child : MCTSNode) (parent_visits : ℝ) : ℝ :=
  let beta := K / (K + (child.visits : ℝ))
  (1 - beta) * ((child.wins : ℝ) / (child.visits : ℝ)) +
    beta * ((child.rave_wins : ℝ) / (child.rave_visits : ℝ)) +
    C * Real.sqrt (Real.log parent_visits / (child.visits : ℝ))

/-- A concrete child with `visits = 1`, `rave_visits = 10`: the code's
β-denominator `K + visits + 0.1·rave_visits` differs from the claim's
`K + visits` here. -/
def c6child : MCTSNode :=
  { move_idx := some 0, parent := some 0, children := [],
    wins := 1, visits := 1, rave_wins := 5, rave_visits := 10,
    untried_moves := [], player := PlayerA.ai }

/-! ### Concrete states used to exercise the code at its failing inputs -/

/-- A full column-3 wall of destroyed cells: `(r, 3)` for `r = 0..6`. -/
def columnWall : Nat :=
  (List.range 7).foldl (fun m r => m ||| (1 <<< (r * 7 + 3))) 0

/-- A state whose AI piece at `(6,6)` is walled in by destroyed cells at
`(5,5)`, `(5,6)` and `(6,5)`: the AI to move has no legal queen move. -/
def walledInState : GameStateB :=
  { player := 1 <<< 0, ai := 1 <<< 48,
    destroyed := (1 <<< 40) ||| (1 <<< 41) ||| (1 <<< 47) }

/-- A state with exactly 10 free board cells: player at `(0,0)`, AI at
`(3,3)`, free cells are the AI's 8 neighbours plus `(0,1)` and `(1,0)`;
every other cell is destroyed. -/
def tenFreeCellsState : GameStateB :=
  { player := 1 <<< 0, ai := 1 <<< 24,
    destroyed := ((1 <<< 49) - 1) ^^^
      ([0, 24, 16, 17, 18, 23, 25, 30, 31, 32, 1, 7].foldl
        (fun m i => m ||| (1 <<< i)) 0) }

/-! ### Search move application (`search_advanced.rs` lines 528–550) -/

/-- The state update performed for one `(slide, destroy)` pair inside
`alpha_beta_advanced`: the mover's piece mask is replaced by the
destination's mask and the destroyed cell's mask is or-ed in. -/
def applyMoveB (st : GameStateB) (maximizing : Bool)
    (toPos destroyPos : Nat × Nat) : GameStateB :=
  { player := if maximizing then st.player else pos_to_mask toPos.1 toPos.2,
    ai := if maximizing then pos_to_mask toPos.1 toPos.2 else st.ai,
    destroyed := st.destroyed ||| pos_to_mask destroyPos.1 destroyPos.2 }

/-- A `(slide, destroy)` pair as `alpha_beta_advanced` actually expands it:
the slide comes from `get_valid_moves`, passes the defensive coordinate
filter (line 530), and the destroyed cell comes from
`get_destroy_candidates_advanced` with the fixed candidate count 6. -/
def StepB (st : GameStateB) (maximizing : Bool) (mv : Move) (dp : Nat × Nat) : Prop :=
  mv ∈ get_valid_moves st maximizing ∧
  mv.toPos.1 < BOARD_SIZE ∧ mv.toPos.2 < BOARD_SIZE ∧
  dp ∈ get_destroy_candidates_advanced st mv maximizing 6

/-- Raw `from_raw` arguments that describe a well-formed position: the two
clamped piece cells are distinct and no destroyed pair names either piece
cell. -/
def goodRaw (pr pc ar ac : Nat) (dl : List (Nat × Nat)) : Prop :=
  (min pr 6, min pc 6) ≠ (min ar 6, min ac 6) ∧
  ∀ q ∈ dl, q ≠ (min pr 6, min pc 6) ∧ q ≠ (min ar 6, min ac 6)

/-- Game B states reachable by `from_raw` construction followed by any
sequence of search move applications. -/
inductive ReachableB : GameStateB → Prop
  | init (pr pc ar ac : Nat) (dl : List (Nat × Nat)) (h : goodRaw pr pc ar ac dl) :
      ReachableB (from_raw pr pc ar ac dl)
  | step (st : GameStateB) (maximizing : Bool) (mv : Move) (dp : Nat × Nat)
      (hst : ReachableB st) (hmv : StepB st maximizing mv dp) :
      ReachableB (applyMoveB st maximizing mv.toPos dp)

/-- The Game B mask invariant: `player` and `ai` are single bits among the
49 board cells and the three masks are pairwise disjoint. -/
def InvB (st : GameStateB) : Prop :=
  (∃ i, i < 49 ∧ st.player = 2 ^ i) ∧ (∃ j, j < 49 ∧ st.ai = 2 ^ j) ∧
  st.player &&& st.ai = 0 ∧ st.player &&& st.destroyed = 0 ∧
  st.ai &&& st.destroyed = 0

end Move37

namespace Move37

/-! ### Bit-level toolkit -/

theorem land_eq_zero_iff {a b : Nat} :
    a &&& b = 0 ↔ ∀ i, a.testBit i = true → b.testBit i = false := by
  constructor
  · intro h i ha
    by_contra hb
    have hb' : b.testBit i = true := by
      cases hB : b.testBit i
      · exact absurd hB hb
      · rfl
    have : (a &&& b).testBit i = true := by
      rw [Nat.testBit_land, ha, hb']; rfl
    rw [h, Nat.zero_testBit] at this
    exact Bool.false_ne_true this
  · intro h
    apply Nat.eq_of_testBit_eq
    intro i
    rw [Nat.testBit_land, Nat.zero_testBit]
    cases ha : a.testBit i
    · rfl
    · rw [h i ha]; rfl

theorem testBit_U64MAX (i : Nat) : U64MAX.testBit i = decide (i < 64) := by
  have := Nat.testBit_two_pow_sub_one 64 i
  simpa [U64MAX] using this

theorem testBit_not64 {b : Nat} (hb : b < 2 ^ 64) (i : Nat) :
    (not64 b).testBit i = (decide (i < 64) && !b.testBit i) := by
  rw [not64, Nat.testBit_xor, testBit_U64MAX]
  by_cases h : i < 64
  · simp [h]
  · have : b.testBit i = false := by
      apply Nat.testBit_eq_false_of_lt
      calc b < 2 ^ 64 := hb
        _ ≤ 2 ^ i := Nat.pow_le_pow_right (by omega) (by omega)
    simp [h, this]

theorem land_not64_land_eq_zero {b : Nat} (hb : b < 2 ^ 64) (y : Nat) :
    (y &&& not64 b) &&& b = 0 := by
  rw [land_eq_zero_iff]
  intro i hy
  rw [Nat.testBit_land, testBit_not64 hb] at hy
  cases hB : b.testBit i
  · rfl
  · rw [hB] at hy; simp at hy

theorem lor_land_eq_zero {a c b : Nat} (h1 : a &&& b = 0) (h2 : c &&& b = 0) :
    (a ||| c) &&& b = 0 := by
  rw [land_eq_zero_iff] at h1 h2 ⊢
  intro i hi
  rw [Nat.testBit_lor] at hi
  rcases Bool.or_eq_true_iff.mp hi with h' | h'
  · exact h1 i h'
  · exact h2 i h'

theorem dirFill_land_eq_zero {b : Nat} {step : Nat → Nat}
    (hstep : ∀ x, step x &&& b = 0) :
    ∀ (f fill acc : Nat), acc &&& b = 0 → dirFill step f fill acc &&& b = 0 := by
  intro f
  induction f with
  | zero => intro fill acc h; simpa [dirFill] using h
  | succ f ih =>
    intro fill acc h
    rw [dirFill]
    by_cases hz : step fill = 0
    · simpa [hz] using h
    · simp only [hz, if_false]
      exact ih _ _ (lor_land_eq_zero h (hstep fill))

/-- The bit-parallel expansion never returns a blocked bit: every fill
step is intersected with `empty = !blocked`. -/
theorem expand_queen_bit_parallel_land_blocked (source : Nat) {blocked : Nat}
    (hb : blocked < 2 ^ 64) :
    expand_queen_bit_parallel source blocked &&& blocked = 0 := by
  have hstep : ∀ y, (y &&& not64 blocked) &&& blocked = 0 :=
    land_not64_land_eq_zero hb
  simp only [expand_queen_bit_parallel]
  exact dirFill_land_eq_zero (fun x => hstep _) _ _ _
    (dirFill_land_eq_zero (fun x => hstep _) _ _ _
      (dirFill_land_eq_zero (fun x => hstep _) _ _ _
        (dirFill_land_eq_zero (fun x => hstep _) _ _ _
          (dirFill_land_eq_zero (fun x => hstep _) _ _ _
            (dirFill_land_eq_zero (fun x => hstep _) _ _ _
              (dirFill_land_eq_zero (fun x => hstep _) _ _ _
                (dirFill_land_eq_zero (fun x => hstep _) _ _ _
                  (Nat.zero_and _))))))))

theorem get_queen_moves_land_blocked (r c : Nat) {blocked : Nat}
    (hb : blocked < 2 ^ 64) :
    get_queen_moves r c blocked &&& blocked = 0 :=
  expand_queen_bit_parallel_land_blocked _ hb

theorem land_lor_eq_zero {a b c : Nat} (h1 : a &&& b = 0) (h2 : a &&& c = 0) :
    a &&& (b ||| c) = 0 := by
  rw [land_eq_zero_iff] at h1 h2 ⊢
  intro i hi
  rw [Nat.testBit_lor, h1 i hi, h2 i hi]
  rfl

theorem land_two_pow_eq_zero_iff {n i : Nat} :
    n &&& 2 ^ i = 0 ↔ n.testBit i = false := by
  rw [Nat.and_two_pow]
  cases h : n.testBit i <;>
    simp [h, (Nat.pos_pow_of_pos i (show 0 < 2 by omega)).ne']

theorem two_pow_land_eq_zero_iff {n i : Nat} :
    2 ^ i &&& n = 0 ↔ n.testBit i = false := by
  rw [Nat.land_comm]
  exact land_two_pow_eq_zero_iff

theorem two_pow_lt_two_pow_49 {i : Nat} (h : i < 49) : 2 ^ i < 2 ^ 49 :=
  Nat.pow_lt_pow_right (by omega) h

/-- `pos_to_mask` on in-range coordinates is the single bit `2^(r*7+c)`. -/
theorem pos_to_mask_eq_two_pow {r c : Nat} (hr : r < 7) (hc : c < 7) :
    pos_to_mask r c = 2 ^ (r * 7 + c) := by
  have hlt : r * 7 + c < 49 := by omega
  simp only [pos_to_mask, BOARD_SIZE, shl64]
  rw [if_neg (by omega), Nat.one_shiftLeft]
  exact Nat.mod_eq_of_lt (by
    calc 2 ^ (r * 7 + c) < 2 ^ 49 := two_pow_lt_two_pow_49 hlt
      _ < 2 ^ 64 := by norm_num)

/-- Splitting an index below 49 into board coordinates and back. -/
theorem index_to_pos_spec {i : Nat} (h : i < 49) :
    (index_to_pos i).1 < 7 ∧ (index_to_pos i).2 < 7 ∧
    (index_to_pos i).1 * 7 + (index_to_pos i).2 = i := by
  simp only [index_to_pos, BOARD_SIZE]
  refine ⟨by omega, Nat.mod_lt _ (by omega), ?_⟩
  have := Nat.div_add_mod i 7
  omega

theorem pos_to_mask_index_to_pos {i : Nat} (h : i < 49) :
    pos_to_mask (index_to_pos i).1 (index_to_pos i).2 = 2 ^ i := by
  obtain ⟨h1, h2, h3⟩ := index_to_pos_spec h
  rw [pos_to_mask_eq_two_pow h1 h2, h3]

theorem index_to_pos_fst_lt {i : Nat} (h1 : (index_to_pos i).1 < 7) (h2 : i < 64) :
    i < 49 := by
  simp only [index_to_pos, BOARD_SIZE] at h1
  omega

/-- Extracting the destination bit from membership in `get_valid_moves`. -/
theorem mem_get_valid_moves {st : GameStateB} {is_ai : Bool} {mv : Move}
    (h : mv ∈ get_valid_moves st is_ai) :
    ∃ i, i < 64 ∧
      (get_queen_moves
        (index_to_pos (trailing_zeros (if is_ai then st.ai else st.player))).1
        (index_to_pos (trailing_zeros (if is_ai then st.ai else st.player))).2
        (st.destroyed ||| (if is_ai then st.player else st.ai))).testBit i = true ∧
      mv.toPos = index_to_pos i := by
  simp only [get_valid_moves, List.mem_map, List.mem_filter, List.mem_range] at h
  obtain ⟨i, ⟨hi, hbit⟩, heq⟩ := h
  refine ⟨i, hi, by simpa using hbit, by cases heq; rfl⟩

/-- Extracting the destroyed bit from membership in
`get_destroy_candidates_advanced`: every candidate is an empty board cell
(distinct, in particular, from both pieces and the destination). -/
theorem mem_destroy_candidates {st : GameStateB} {mv : Move} {maximizing : Bool}
    {k : Nat} {dp : Nat × Nat}
    (h : dp ∈ get_destroy_candidates_advanced st mv maximizing k) :
    ∃ j, j < 49 ∧ dp = index_to_pos j ∧
      (st.destroyed ||| st.player ||| st.ai |||
        pos_to_mask mv.toPos.1 mv.toPos.2).testBit j = false := by
  simp only [get_destroy_candidates_advanced] at h
  cases hsafe : safe_get_position_index (if maximizing then st.player else st.ai) with
  | none => rw [hsafe] at h; simp at h
  | some target_idx =>
    rw [hsafe] at h
    simp only [List.mem_map] at h
    obtain ⟨pc, hpc, hfst⟩ := h
    have hpc' := List.mem_of_mem_take hpc
    have hmem := (List.mergeSort_perm _ _).subset hpc'
    simp only [List.mem_map, List.mem_filter, List.mem_range] at hmem
    obtain ⟨j, ⟨hj64, hbit⟩, hje⟩ := hmem
    set occupied := st.destroyed ||| st.player ||| st.ai |||
      pos_to_mask mv.toPos.1 mv.toPos.2 with hocc
    have hfull : (((1 <<< CELL_COUNT) - 1) &&& not64 occupied).testBit j = true := by
      simpa using hbit
    rw [Nat.testBit_land, Bool.and_eq_true_iff] at hfull
    have hjlt : j < 49 := by
      have := hfull.1
      rw [CELL_COUNT, Nat.one_shiftLeft, Nat.testBit_two_pow_sub_one] at this
      simpa using this
    refine ⟨j, hjlt, by rw [← hfst, ← hje], ?_⟩
    have hnot : (not64 occupied).testBit j = true := hfull.2
    rw [not64, Nat.testBit_xor, testBit_U64MAX] at hnot
    have hj64' : j < 64 := by omega
    simp only [hj64', decide_True, Bool.true_xor] at hnot
    cases hO : occupied.testBit j
    · rfl
    · rw [hO] at hnot; simp at hnot

/-- `pos_to_mask` never sets a bit at or above 49. -/
theorem pos_to_mask_lt (r c : Nat) : pos_to_mask r c < 2 ^ 49 := by
  by_cases h : r ≥ BOARD_SIZE ∨ c ≥ BOARD_SIZE
  · simp [pos_to_mask, h]
  · push_neg at h
    rw [pos_to_mask_eq_two_pow (by simpa [BOARD_SIZE] using h.1)
      (by simpa [BOARD_SIZE] using h.2)]
    apply two_pow_lt_two_pow_49
    have h1 : r < 7 := by simpa [BOARD_SIZE] using h.1
    have h2 : c < 7 := by simpa [BOARD_SIZE] using h.2
    omega

/-- A destroyed-list entry distinct from a given in-range cell contributes
a mask disjoint from that cell's bit. -/
theorem pos_to_mask_land_cell {q : Nat × Nat} {r0 c0 : Nat}
    (_hr : r0 < 7) (hc : c0 < 7) (hne : q ≠ (r0, c0)) :
    pos_to_mask q.1 q.2 &&& 2 ^ (r0 * 7 + c0) = 0 := by
  by_cases h : q.1 ≥ BOARD_SIZE ∨ q.2 ≥ BOARD_SIZE
  · simp [pos_to_mask, h, Nat.zero_and]
  · push_neg at h
    have h1 : q.1 < 7 := by simpa [BOARD_SIZE] using h.1
    have h2 : q.2 < 7 := by simpa [BOARD_SIZE] using h.2
    rw [pos_to_mask_eq_two_pow h1 h2, land_two_pow_eq_zero_iff]
    apply Nat.testBit_two_pow_of_ne
    intro heq
    apply hne
    have : q.1 = r0 ∧ q.2 = c0 := by omega
    exact Prod.ext this.1 this.2

theorem dmask_fold_spec {r0 c0 r1 c1 : Nat}
    (hr0 : r0 < 7) (hc0 : c0 < 7) (hr1 : r1 < 7) (hc1 : c1 < 7) :
    ∀ (dl : List (Nat × Nat)) (acc : Nat),
      (∀ q ∈ dl, q ≠ (r0, c0) ∧ q ≠ (r1, c1)) →
      acc &&& 2 ^ (r0 * 7 + c0) = 0 → acc &&& 2 ^ (r1 * 7 + c1) = 0 →
      acc < 2 ^ 49 →
      (dl.foldl (fun m p => m ||| pos_to_mask p.1 p.2) acc) &&& 2 ^ (r0 * 7 + c0) = 0 ∧
      (dl.foldl (fun m p => m ||| pos_to_mask p.1 p.2) acc) &&& 2 ^ (r1 * 7 + c1) = 0 ∧
      dl.foldl (fun m p => m ||| pos_to_mask p.1 p.2) acc < 2 ^ 49 := by
  intro dl
  induction dl with
  | nil => intro acc _ h0 h1 hlt; exact ⟨h0, h1, hlt⟩
  | cons q dl ih =>
    intro acc hq h0 h1 hlt
    simp only [List.foldl_cons]
    have hq' := hq q (List.mem_cons_self q dl)
    apply ih _ (fun x hx => hq x (List.mem_cons_of_mem q hx))
    · exact lor_land_eq_zero h0 (pos_to_mask_land_cell hr0 hc0 hq'.1)
    · exact lor_land_eq_zero h1 (pos_to_mask_land_cell hr1 hc1 hq'.2)
    · exact Nat.or_lt_two_pow hlt (pos_to_mask_lt q.1 q.2)

/-- `from_raw` establishes the mask invariant when its raw arguments
describe a well-formed position. -/
theorem invB_from_raw {pr pc ar ac : Nat} {dl : List (Nat × Nat)}
    (h : goodRaw pr pc ar ac dl) :
    InvB (from_raw pr pc ar ac dl) ∧ (from_raw pr pc ar ac dl).destroyed < 2 ^ 49 := by
  obtain ⟨hne, hdl⟩ := h
  have hpr : min pr (BOARD_SIZE - 1) < 7 := by simp only [BOARD_SIZE]; omega
  have hpc : min pc (BOARD_SIZE - 1) < 7 := by simp only [BOARD_SIZE]; omega
  have har : min ar (BOARD_SIZE - 1) < 7 := by simp only [BOARD_SIZE]; omega
  have hac : min ac (BOARD_SIZE - 1) < 7 := by simp only [BOARD_SIZE]; omega
  have hB : BOARD_SIZE - 1 = 6 := rfl
  rw [hB] at hpr hpc har hac
  have hip : min pr 6 * 7 + min pc 6 < 49 := by omega
  have hia : min ar 6 * 7 + min ac 6 < 49 := by omega
  have hpm : pos_to_mask (min pr 6) (min pc 6) = 2 ^ (min pr 6 * 7 + min pc 6) :=
    pos_to_mask_eq_two_pow hpr hpc
  have ham : pos_to_mask (min ar 6) (min ac 6) = 2 ^ (min ar 6 * 7 + min ac 6) :=
    pos_to_mask_eq_two_pow har hac
  have hidx : min pr 6 * 7 + min pc 6 ≠ min ar 6 * 7 + min ac 6 := by
    intro heq
    apply hne
    have : min pr 6 = min ar 6 ∧ min pc 6 = min ac 6 := by omega
    rw [this.1, this.2]
  have hfold := dmask_fold_spec hpr hpc har hac dl 0
    (fun q hq => hdl q hq)
    (Nat.zero_and _) (Nat.zero_and _) (by positivity)
  simp only [from_raw, hB]
  refine ⟨⟨⟨min pr 6 * 7 + min pc 6, hip, hpm⟩,
    ⟨min ar 6 * 7 + min ac 6, hia, ham⟩, ?_, ?_, ?_⟩, hfold.2.2⟩
  · rw [hpm, ham, land_two_pow_eq_zero_iff]
    exact Nat.testBit_two_pow_of_ne hidx
  · rw [hpm, Nat.land_comm]
    exact hfold.1
  · rw [ham, Nat.land_comm]
    exact hfold.2.1

/-- One search move application preserves the mask invariant. -/
theorem invB_step {st : GameStateB} {maximizing : Bool} {mv : Move} {dp : Nat × Nat}
    (hinv : InvB st) (hd : st.destroyed < 2 ^ 49)
    (hstep : StepB st maximizing mv dp) :
    InvB (applyMoveB st maximizing mv.toPos dp) ∧
      (applyMoveB st maximizing mv.toPos dp).destroyed < 2 ^ 49 := by
  obtain ⟨⟨p, hp49, hpl⟩, ⟨a, ha49, hal⟩, hpa, hpd, had⟩ := hinv
  obtain ⟨hmem, ht1, ht2, hdp⟩ := hstep
  obtain ⟨i, hi64, hbit, hto⟩ := mem_get_valid_moves hmem
  have hi49 : i < 49 := by
    apply index_to_pos_fst_lt _ hi64
    rw [← hto]
    simpa [BOARD_SIZE] using ht1
  have hopp_lt : (if maximizing then st.player else st.ai) < 2 ^ 49 := by
    cases maximizing with
    | true => rw [if_pos rfl, hpl]; exact two_pow_lt_two_pow_49 hp49
    | false => rw [if_neg (by decide), hal]; exact two_pow_lt_two_pow_49 ha49
  have hblock : st.destroyed ||| (if maximizing then st.player else st.ai) < 2 ^ 64 := by
    have := Nat.or_lt_two_pow hd hopp_lt
    calc st.destroyed ||| _ < 2 ^ 49 := this
      _ < 2 ^ 64 := by norm_num
  have hdisj := get_queen_moves_land_blocked
    (index_to_pos (trailing_zeros (if maximizing then st.ai else st.player))).1
    (index_to_pos (trailing_zeros (if maximizing then st.ai else st.player))).2
    hblock
  have hbb := land_eq_zero_iff.mp hdisj i hbit
  rw [Nat.testBit_lor, Bool.or_eq_false_iff] at hbb
  obtain ⟨hdi, hoi⟩ := hbb
  obtain ⟨j, hj49, hdpe, hjocc⟩ := mem_destroy_candidates hdp
  rw [Nat.testBit_lor, Nat.testBit_lor, Nat.testBit_lor] at hjocc
  simp only [Bool.or_eq_false_iff] at hjocc
  obtain ⟨⟨⟨hjd, hjp⟩, hja⟩, hjt⟩ := hjocc
  have htm : pos_to_mask mv.toPos.1 mv.toPos.2 = 2 ^ i := by
    rw [hto]; exact pos_to_mask_index_to_pos hi49
  have hdm : pos_to_mask dp.1 dp.2 = 2 ^ j := by
    rw [hdpe]; exact pos_to_mask_index_to_pos hj49
  have hij : i ≠ j := by
    intro heq
    rw [htm, heq, Nat.testBit_two_pow_self] at hjt
    simp at hjt
  have hdestroyed' :
      st.destroyed ||| pos_to_mask dp.1 dp.2 < 2 ^ 49 := by
    rw [hdm]
    exact Nat.or_lt_two_pow hd (two_pow_lt_two_pow_49 hj49)
  cases maximizing with
  | true =>
    have hfield : applyMoveB st true mv.toPos dp =
        { player := st.player, ai := pos_to_mask mv.toPos.1 mv.toPos.2,
          destroyed := st.destroyed ||| pos_to_mask dp.1 dp.2 } := by
      simp [applyMoveB]
    rw [hfield]
    rw [if_pos rfl] at hoi
    refine ⟨⟨⟨p, hp49, hpl⟩, ⟨i, hi49, htm⟩, ?_, ?_, ?_⟩, hdestroyed'⟩
    · show st.player &&& pos_to_mask mv.toPos.1 mv.toPos.2 = 0
      rw [htm, land_two_pow_eq_zero_iff]
      rw [hpl] at hoi ⊢
      exact hoi
    · show st.player &&& (st.destroyed ||| pos_to_mask dp.1 dp.2) = 0
      apply land_lor_eq_zero hpd
      rw [hdm, land_two_pow_eq_zero_iff]
      exact hjp
    · show pos_to_mask mv.toPos.1 mv.toPos.2 &&&
        (st.destroyed ||| pos_to_mask dp.1 dp.2) = 0
      rw [htm, hdm]
      apply land_lor_eq_zero
      · rw [two_pow_land_eq_zero_iff]
        exact hdi
      · rw [land_two_pow_eq_zero_iff]
        exact Nat.testBit_two_pow_of_ne hij
  | false =>
    have hfield : applyMoveB st false mv.toPos dp =
        { player := pos_to_mask mv.toPos.1 mv.toPos.2, ai := st.ai,
          destroyed := st.destroyed ||| pos_to_mask dp.1 dp.2 } := by
      simp [applyMoveB]
    rw [hfield]
    rw [if_neg (by decide)] at hoi
    refine ⟨⟨⟨i, hi49, htm⟩, ⟨a, ha49, hal⟩, ?_, ?_, ?_⟩, hdestroyed'⟩
    · show pos_to_mask mv.toPos.1 mv.toPos.2 &&& st.ai = 0
      rw [htm, two_pow_land_eq_zero_iff]
      exact hoi
    · show pos_to_mask mv.toPos.1 mv.toPos.2 &&&
        (st.destroyed ||| pos_to_mask dp.1 dp.2) = 0
      rw [htm, hdm]
      apply land_lor_eq_zero
      · rw [two_pow_land_eq_zero_iff]
        exact hdi
      · rw [land_two_pow_eq_zero_iff]
        exact Nat.testBit_two_pow_of_ne hij
    · show st.ai &&& (st.destroyed ||| pos_to_mask dp.1 dp.2) = 0
      apply land_lor_eq_zero had
      rw [hdm, land_two_pow_eq_zero_iff]
      exact hja

theorem reachableB_inv_aux : ∀ st, ReachableB st → InvB st ∧ st.destroyed < 2 ^ 49 := by
  intro st h
  induction h with
  | init pr pc ar ac dl hg => exact invB_from_raw hg
  | step st maximizing mv dp hst hmv ih => exact invB_step ih.1 ih.2 hmv

end Move37

namespace Move37

/-- **C1** (code bug).  The spec — and the crate's own unit test
`test_no_partition_empty_board` — require `is_partitioned = false` on a
fully empty board, but `detect_partition_bitboard` blocks the AI's cell
inside the flood fill it then tests that cell's membership in, so it
reports `is_partitioned = true` (here at player `(0,0)`, AI `(6,6)`,
empty destroyed mask). -/
theorem detect_partition_empty_board_reports_partitioned :
    (detect_partition_bitboard (0, 0) (6, 6) 0).is_partitioned = true := by decide

/-- **C7** (confirmed).  For every state whose player or AI position
bitmask is empty, `evaluate_advanced` short-circuits through
`safe_get_position_index` and returns the neutral score 0 with every
evaluation component zero (and, being total, cannot panic). -/
theorem evaluate_advanced_neutral_on_empty_mask (st : GameStateB) (w : EvalWeights)
    (h : st.player = 0 ∨ st.ai = 0) :
    evaluate_advanced st w = (0, EvalComponents.zero) := by
  rcases h with h | h
  · simp [evaluate_advanced, safe_get_position_index, h]
  · simp only [evaluate_advanced, safe_get_position_index, h]
    split <;> simp

/-- Sample weight vector (the NEXUS-7 preset values) used to instantiate
hypotheses at a concrete input. -/
def sampleWeights : EvalWeights :=
  { territory := 5, mobility := 8, mobility_potential := 5, center_control := 2,
    corner_avoidance := 3, partition_advantage := 500, critical_cells := 4,
    openness := 1, parity := 20, trap := 100, effective_mobility := 3 }

/-- Witness for C7: a concrete state with an empty player mask evaluates
to the neutral result. -/
theorem evaluate_advanced_neutral_on_empty_mask_witness :
    evaluate_advanced ⟨0, 1 <<< 48, 0⟩ sampleWeights = (0, EvalComponents.zero) :=
  evaluate_advanced_neutral_on_empty_mask ⟨0, 1 <<< 48, 0⟩ sampleWeights (Or.inl rfl)

/-- **C2** (code bug).  From `(6,6)` on an empty board the bit-parallel
expansion leaks past the top edge into the unused bits 49–63 of the
64-bit word (the column-wrap masks only cover rows 0–6), so its move set
differs from 8-directional ray casting and contains a bit with index ≥ 49
(bit 49, the cell "row 7, column 0"). -/
theorem bit_parallel_moves_differ_from_ray_cast :
    get_queen_moves 6 6 0 ≠ ray_cast_queen_moves 6 6 0 ∧
    (get_queen_moves 6 6 0).testBit 49 = true := by decide

/-- **C3** (code bug).  In `walledInState` the AI to move has no legal
queen move (ray casting from `(6,6)` against the destroyed cells and the
opposing piece yields the empty move set), yet the mobility count computed
by `alpha_beta_advanced`'s terminal check is 10 — all ten moves are
off-board bits 49–63 — so the `mobility == 0` branch is not taken and the
terminal score `-100_000 - 100·depth` is not returned. -/
theorem terminal_loss_missed_by_mobility_check :
    ray_cast_queen_moves 6 6 (walledInState.destroyed ||| walledInState.player) = 0 ∧
    mover_mobility walledInState true = 10 := by decide

/-- **C4** (code bug).  With a complete column-3 wall of 7 destroyed cells
separating player `(0,0)` from AI `(0,6)`, the claim expects
`player_region_size + ai_region_size = 49 - 7 - 2 = 40`; the code instead
returns 56 + 56 = 112: each flood fill escapes the board through bits
49–63, crosses the wall there, and the two "regions" overlap. -/
theorem wall_partition_region_sizes_mismatch :
    count_ones columnWall = 7 ∧
    (detect_partition_bitboard (0, 0) (0, 6) columnWall).is_partitioned = true ∧
    (detect_partition_bitboard (0, 0) (0, 6) columnWall).player_region_size +
      (detect_partition_bitboard (0, 0) (0, 6) columnWall).ai_region_size = 112 ∧
    (detect_partition_bitboard (0, 0) (0, 6) columnWall).player_region &&&
      (detect_partition_bitboard (0, 0) (0, 6) columnWall).ai_region ≠ 0 := by decide

theorem selectChild_fold_aux (nodes : List MCTSNode) (lv : ℝ) :
    ∀ (l : List Nat) (b : Nat) (s : ℝ),
      s = uctScore 300 (nodes.getD b default) lv →
      ((l.foldl (selectStep nodes lv) (b, some s)).1 = b ∨
        (l.foldl (selectStep nodes lv) (b, some s)).1 ∈ l) ∧
      s ≤ uctScore 300 (nodes.getD (l.foldl (selectStep nodes lv) (b, some s)).1 default) lv ∧
      ∀ c ∈ l, uctScore 300 (nodes.getD c default) lv ≤
        uctScore 300 (nodes.getD (l.foldl (selectStep nodes lv) (b, some s)).1 default) lv := by
  intro l
  induction l with
  | nil =>
    intro b s hs
    simp [hs, le_refl]
  | cons c l ih =>
    intro b s hs
    simp only [List.foldl_cons]
    by_cases hgt : uctScore 300 (nodes.getD c default) lv > s
    · have hstep : selectStep nodes lv (b, some s) c =
          (c, some (uctScore 300 (nodes.getD c default) lv)) := by
        simp only [selectStep]
        rw [if_pos hgt]
      rw [hstep]
      obtain ⟨hmem, hge, hall⟩ := ih c _ rfl
      refine ⟨?_, ?_, ?_⟩
      · rcases hmem with h | h
        · exact Or.inr (by rw [h]; exact List.mem_cons_self c l)
        · exact Or.inr (List.mem_cons_of_mem c h)
      · exact le_trans (le_of_lt hgt) hge
      · intro x hx
        rcases List.mem_cons.mp hx with rfl | hx'
        · exact hge
        · exact hall x hx'
    · have hstep : selectStep nodes lv (b, some s) c = (b, some s) := by
        simp only [selectStep]
        rw [if_neg hgt]
      rw [hstep]
      obtain ⟨hmem, hge, hall⟩ := ih b s hs
      refine ⟨?_, hge, ?_⟩
      · rcases hmem with h | h
        · exact Or.inl h
        · exact Or.inr (List.mem_cons_of_mem c h)
      · intro x hx
        rcases List.mem_cons.mp hx with rfl | hx'
        · exact le_trans (not_lt.mp hgt) hge
        · exact hall x hx'

/-! ### Swap-removal lemmas (Game A) -/

theorem length_swapRemove (l : List Nat) (v : Nat) :
    (swapRemove l v).length = l.length - 1 := by
  simp [swapRemove]

theorem getD_swapRemove_of_ne {l : List Nat} {v p : Nat} (hp : p < l.length - 1)
    (hne : p ≠ v) : (swapRemove l v).getD p 0 = l.getD p 0 := by
  simp only [swapRemove, List.getD_eq_getElem?_getD, List.getElem?_dropLast,
    List.length_set]
  rw [if_pos hp, List.getElem?_set_ne (Ne.symm hne)]

theorem getD_swapRemove_self {l : List Nat} {v : Nat} (hv : v < l.length - 1) :
    (swapRemove l v).getD v 0 = l.getD (l.length - 1) 0 := by
  simp only [swapRemove, List.getD_eq_getElem?_getD, List.getElem?_dropLast,
    List.length_set]
  rw [if_pos hv, List.getElem?_set_self (by omega)]
  simp

theorem getD_mem {l : List Nat} {p : Nat} (hp : p < l.length) : l.getD p 0 ∈ l := by
  rw [List.getD_eq_getElem?_getD, List.getElem?_eq_getElem hp]
  exact List.getElem_mem hp

theorem exists_getD_of_mem {l : List Nat} {i : Nat} (h : i ∈ l) :
    ∃ p, p < l.length ∧ l.getD p 0 = i := by
  obtain ⟨p, hp⟩ := List.mem_iff_getElem?.mp h
  have hlt : p < l.length := by
    by_contra hge
    rw [List.getElem?_eq_none (by omega)] at hp
    cases hp
  exact ⟨p, hlt, by rw [List.getD_eq_getElem?_getD, hp]; rfl⟩

/-- Membership after swap-removal of the element at a valid position `v`
of a duplicate-free list: exactly the other elements remain. -/
theorem mem_swapRemove_iff {l : List Nat} {v : Nat} (hv : v < l.length)
    (hinj : ∀ p1 p2, p1 < l.length → p2 < l.length →
      l.getD p1 0 = l.getD p2 0 → p1 = p2) (i : Nat) :
    i ∈ swapRemove l v ↔ (i ∈ l ∧ i ≠ l.getD v 0) := by
  constructor
  · intro h
    obtain ⟨p, hp, hpe⟩ := exists_getD_of_mem h
    rw [length_swapRemove] at hp
    by_cases hpv : p = v
    · subst hpv
      rw [getD_swapRemove_self hp] at hpe
      subst hpe
      refine ⟨getD_mem (by omega), ?_⟩
      intro he
      have := hinj _ _ (by omega) hv he
      omega
    · rw [getD_swapRemove_of_ne hp hpv] at hpe
      subst hpe
      refine ⟨getD_mem (by omega), ?_⟩
      intro he
      have := hinj _ _ (by omega) hv he
      omega
  · rintro ⟨hmem, hne⟩
    obtain ⟨p, hp, hpe⟩ := exists_getD_of_mem hmem
    have hpv : p ≠ v := by
      intro he
      subst he
      exact hne hpe.symm
    by_cases hlast : p = l.length - 1
    · subst hlast
      have hvlt : v < l.length - 1 := by omega
      rw [List.mem_iff_getElem?]
      refine ⟨v, ?_⟩
      have := getD_swapRemove_self hvlt
      rw [hpe] at this
      rw [List.getD_eq_getElem?_getD] at this
      have hvlen : v < (swapRemove l v).length := by rw [length_swapRemove]; omega
      rw [List.getElem?_eq_getElem hvlen] at this ⊢
      simp only [Option.getD_some] at this
      rw [this]
    · have hplt : p < l.length - 1 := by omega
      rw [List.mem_iff_getElem?]
      refine ⟨p, ?_⟩
      have := getD_swapRemove_of_ne hplt hpv
      rw [hpe] at this
      rw [List.getD_eq_getElem?_getD] at this
      have hplen : p < (swapRemove l v).length := by rw [length_swapRemove]; omega
      rw [List.getElem?_eq_getElem hplen] at this ⊢
      simp only [Option.getD_some] at this
      rw [this]

/-- `make_move` on an empty cell preserves the list/map coherence
invariant (swap-removal correctness). -/
theorem invA_make_move {st : GameStateA} {idx : Nat} {player : PlayerA}
    (hinv : InvA st) (hempty : st.board[idx]? = some PlayerA.none)
    (hp : player ≠ PlayerA.none) : InvA (make_move st idx player) := by
  obtain ⟨hbl, hml, hmem121, hinvmap, hcoh⟩ := hinv
  have hidxlt : idx < NUM_CELLS := by
    rw [← hbl]
    by_contra hge
    rw [List.getElem?_eq_none (by omega)] at hempty
    cases hempty
  have hbnone : st.board.getD idx PlayerA.none = PlayerA.none := by
    rw [List.getD_eq_getElem?_getD, hempty]
    rfl
  have hidxmem : idx ∈ st.empty_cells := (hcoh idx hidxlt).mp hbnone
  obtain ⟨q, hq, hqe⟩ := exists_getD_of_mem hidxmem
  have hv : st.empty_cells_map.getD idx 0 = q := by
    rw [← hqe]
    exact hinvmap q hq
  have hinj : ∀ p1 p2, p1 < st.empty_cells.length → p2 < st.empty_cells.length →
      st.empty_cells.getD p1 0 = st.empty_cells.getD p2 0 → p1 = p2 := by
    intro p1 p2 h1 h2 he
    have e1 := hinvmap p1 h1
    have e2 := hinvmap p2 h2
    rw [he] at e1
    exact e1.symm.trans e2
  have hlast_mem : st.empty_cells.getD (st.empty_cells.length - 1) 0 ∈ st.empty_cells :=
    getD_mem (by omega)
  have hlast_lt : st.empty_cells.getD (st.empty_cells.length - 1) 0 < NUM_CELLS :=
    hmem121 _ hlast_mem
  simp only [make_move, hv]
  refine ⟨by simpa using hbl, ?_, ?_, ?_, ?_⟩
  · by_cases hq1 : q = st.empty_cells.length - 1 <;> simp [hq1, hml]
  · intro x hx
    rw [mem_swapRemove_iff hq hinj] at hx
    exact hmem121 x hx.1
  · intro p hplt
    rw [length_swapRemove] at hplt
    by_cases hpq : p = q
    · subst hpq
      have hq1 : p ≠ st.empty_cells.length - 1 := by omega
      rw [if_pos hq1, getD_swapRemove_self (by omega)]
      rw [List.getD_eq_getElem?_getD, List.getElem?_set_self (by omega)]
      rfl
    · rw [getD_swapRemove_of_ne hplt hpq]
      by_cases hq1 : q = st.empty_cells.length - 1
      · rw [if_neg (by omega)]
        exact hinvmap p (by omega)
      · rw [if_pos (by omega)]
        have hne_last : st.empty_cells.getD p 0 ≠
            st.empty_cells.getD (st.empty_cells.length - 1) 0 := by
          intro he
          have := hinj _ _ (by omega) (by omega) he
          omega
        rw [List.getD_eq_getElem?_getD, List.getElem?_set_ne (Ne.symm hne_last),
          ← List.getD_eq_getElem?_getD]
        exact hinvmap p (by omega)
  · intro i hilt
    rw [mem_swapRemove_iff hq hinj, hqe]
    constructor
    · intro hbd
      have hne : i ≠ idx := by
        intro he
        subst he
        rw [List.getD_eq_getElem?_getD, List.getElem?_set_self (by omega)] at hbd
        simp only [Option.getD_some] at hbd
        exact hp hbd
      rw [List.getD_eq_getElem?_getD, List.getElem?_set_ne (Ne.symm hne),
        ← List.getD_eq_getElem?_getD] at hbd
      exact ⟨(hcoh i hilt).mp hbd, hne⟩
    · rintro ⟨hmem, hne⟩
      rw [List.getD_eq_getElem?_getD, List.getElem?_set_ne (Ne.symm hne),
        ← List.getD_eq_getElem?_getD]
      exact (hcoh i hilt).mpr hmem

/-- The invariant holds for the freshly constructed Game A state. -/
theorem invA_new : InvA GameStateA.new := by
  refine ⟨by simp [GameStateA.new, init_virtual_connections],
    by simp [GameStateA.new, init_virtual_connections],
    ?_, ?_, ?_⟩
  · intro x hx
    simp only [GameStateA.new, init_virtual_connections] at hx
    exact List.mem_range.mp hx
  · intro p hplt
    simp only [GameStateA.new, init_virtual_connections, List.length_range] at hplt ⊢
    have h1 : (List.range NUM_CELLS).getD p 0 = p := by
      rw [List.getD_eq_getElem?_getD, List.getElem?_range hplt]
      rfl
    rw [h1, h1]
  · intro i hilt
    simp only [GameStateA.new, init_virtual_connections]
    rw [List.getD_eq_getElem?_getD, List.getElem?_replicate, if_pos hilt]
    simp [List.mem_range, hilt]

theorem reachableA_invA {st : GameStateA} (h : ReachableA st) : InvA st := by
  induction h with
  | init => exact invA_new
  | step st idx player h hempty hp ih => exact invA_make_move ih hempty hp

/-! ### MCTS arena lemmas (C10) -/

theorem nodes_getD_set_self {l : List MCTSNode} {i : Nat} (h : i < l.length)
    (x : MCTSNode) : (l.set i x).getD i default = x := by
  rw [List.getD_eq_getElem?_getD, List.getElem?_set_self h]
  rfl

theorem nodes_getD_set_ne {l : List MCTSNode} {i j : Nat} (h : i ≠ j)
    (x : MCTSNode) : (l.set i x).getD j default = l.getD j default := by
  rw [List.getD_eq_getElem?_getD, List.getElem?_set_ne h, ← List.getD_eq_getElem?_getD]

theorem nodes_getD_append_left {l₁ l₂ : List MCTSNode} {i : Nat} (h : i < l₁.length) :
    (l₁ ++ l₂).getD i default = l₁.getD i default := by
  rw [List.getD_eq_getElem?_getD, List.getElem?_append, if_pos h,
    ← List.getD_eq_getElem?_getD]

theorem nodes_getD_concat_self (l : List MCTSNode) (x : MCTSNode) :
    (l ++ [x]).getD l.length default = x := by
  rw [List.getD_eq_getElem?_getD, List.getElem?_concat_length]
  rfl

theorem backpropUpdate_parent (n : MCTSNode) (w : PlayerA) (m : List Nat) :
    (backpropUpdate n w m).parent = n.parent := rfl

theorem backpropUpdate_children (n : MCTSNode) (w : PlayerA) (m : List Nat) :
    (backpropUpdate n w m).children = n.children := rfl

theorem backpropUpdate_visits (n : MCTSNode) (w : PlayerA) (m : List Nat) :
    (backpropUpdate n w m).visits = n.visits + 1 := rfl

/-- `backpropagateNodes` only changes statistics: the array length and
every node's parent and child links are untouched. -/
theorem backpropagateNodes_structure (w : PlayerA) (m : List Nat) :
    ∀ (fuel : Nat) (nodes : List MCTSNode) (idx : Nat),
      (backpropagateNodes w m fuel nodes idx).length = nodes.length ∧
      ∀ k, ((backpropagateNodes w m fuel nodes idx).getD k default).parent =
          (nodes.getD k default).parent ∧
        ((backpropagateNodes w m fuel nodes idx).getD k default).children =
          (nodes.getD k default).children := by
  intro fuel
  induction fuel with
  | zero => exact fun nodes idx => ⟨rfl, fun k => ⟨rfl, rfl⟩⟩
  | succ fuel ih =>
    intro nodes idx
    have hset : ∀ k,
        ((nodes.set idx (backpropUpdate (nodes.getD idx default) w m)).getD k
          default).parent = (nodes.getD k default).parent ∧
        ((nodes.set idx (backpropUpdate (nodes.getD idx default) w m)).getD k
          default).children = (nodes.getD k default).children := by
      intro k
      by_cases hk : idx = k
      · subst hk
        by_cases hlt : idx < nodes.length
        · rw [nodes_getD_set_self hlt]
          exact ⟨backpropUpdate_parent _ _ _, backpropUpdate_children _ _ _⟩
        · rw [List.set_eq_of_length_le (by omega)]
          exact ⟨rfl, rfl⟩
      · rw [nodes_getD_set_ne hk]
        exact ⟨rfl, rfl⟩
    cases hp : (nodes.getD idx default).parent with
    | none =>
      simp only [backpropagateNodes, hp]
      exact ⟨by simp, hset⟩
    | some p =>
      simp only [backpropagateNodes, hp]
      obtain ⟨hlen, hpc⟩ := ih (nodes.set idx (backpropUpdate (nodes.getD idx default) w m)) p
      refine ⟨by rw [hlen]; simp, fun k => ?_⟩
      obtain ⟨h1, h2⟩ := hpc k
      obtain ⟨h3, h4⟩ := hset k
      exact ⟨h1.trans h3, h2.trans h4⟩

/-- Arena well-formedness only depends on the length and the
parent/children links. -/
theorem arenaWF_transfer {nodes nodes' : List MCTSNode}
    (hlen : nodes'.length = nodes.length)
    (hp : ∀ k, (nodes'.getD k default).parent = (nodes.getD k default).parent)
    (hc : ∀ k, (nodes'.getD k default).children = (nodes.getD k default).children)
    (hwf : ArenaWF nodes) : ArenaWF nodes' := by
  obtain ⟨h1, h2, h3, h4⟩ := hwf
  refine ⟨?_, (hp 0).trans h2, ?_, ?_⟩
  · intro h
    apply h1
    rw [← List.length_eq_zero]
    rw [h] at hlen
    simpa using hlen.symm
  · intro k hk0 hk
    rw [hlen] at hk
    obtain ⟨p, hpe, hplt⟩ := h3 k hk0 hk
    exact ⟨p, (hp k).trans hpe, hplt⟩
  · intro k hk c hcmem
    rw [hlen] at hk
    rw [hc k] at hcmem
    rw [hlen]
    exact h4 k hk c hcmem

theorem arenaWF_new (state : GameStateA) (player : PlayerA) (config : EngineConfig) :
    ArenaWF (MCTSEngine.new state player config).nodes := by
  refine ⟨by simp [MCTSEngine.new], rfl, ?_, ?_⟩
  · intro k hk0 hk
    simp only [MCTSEngine.new, List.length_singleton] at hk
    omega
  · intro k hk c hcmem
    simp only [MCTSEngine.new, List.length_singleton] at hk
    interval_cases k
    simp only [MCTSEngine.new] at hcmem
    simp at hcmem

theorem arenaWF_expand {eng : MCTSEngine} (hwf : ArenaWF eng.nodes)
    (rng : Nat → Nat) (node_idx : Nat) (state : GameStateA)
    (hidx : node_idx < eng.nodes.length) :
    ArenaWF ((eng.expand rng node_idx state).1.nodes) := by
  by_cases hemp : (eng.nodes.getD node_idx default).untried_moves.isEmpty
  · simp only [MCTSEngine.expand, hemp, if_true]
    exact hwf
  · obtain ⟨hne, hroot, hpar, hch⟩ := hwf
    set n := eng.nodes.length with hn
    set node := eng.nodes.getD node_idx default with hnode
    set untried' := swapRemove node.untried_moves
      (expandSampleLoop state node.untried_moves node.player.opponent rng
        (min 15 node.untried_moves.length) 0 (-10000) 0) with huntried
    set state' := make_move state
      (node.untried_moves.getD
        (expandSampleLoop state node.untried_moves node.player.opponent rng
          (min 15 node.untried_moves.length) 0 (-10000) 0) 0)
      node.player.opponent with hstate
    set new_node : MCTSNode :=
      { move_idx := some (node.untried_moves.getD
          (expandSampleLoop state node.untried_moves node.player.opponent rng
            (min 15 node.untried_moves.length) 0 (-10000) 0) 0),
        parent := some node_idx, children := [],
        wins := 0, visits := 0, rave_wins := 0, rave_visits := 0,
        untried_moves := state'.empty_cells, player := node.player.opponent }
      with hnew
    set nodes₁ := eng.nodes.set node_idx { node with untried_moves := untried' }
      with hnodes₁
    have hlen₁ : nodes₁.length = n := by simp [hnodes₁, hn]
    have hresult : (eng.expand rng node_idx state).1.nodes =
        (nodes₁ ++ [new_node]).set node_idx
          { (nodes₁ ++ [new_node]).getD node_idx default with
            children := ((nodes₁ ++ [new_node]).getD node_idx default).children ++
              [nodes₁.length] } := by
      simp only [MCTSEngine.expand, hemp, if_false, Bool.false_eq_true]
    have hgetD₁ : (nodes₁ ++ [new_node]).getD node_idx default =
        { node with untried_moves := untried' } := by
      rw [nodes_getD_append_left (by omega), hnodes₁, nodes_getD_set_self (by omega)]
    have hlen₃ : ((eng.expand rng node_idx state).1.nodes).length = n + 1 := by
      rw [hresult]
      simp [hlen₁]
    have hget : ∀ k, k ≠ node_idx → k < n →
        ((eng.expand rng node_idx state).1.nodes).getD k default =
          eng.nodes.getD k default := by
      intro k hkni hk
      rw [hresult, nodes_getD_set_ne (fun h => hkni h.symm),
        nodes_getD_append_left (by omega), hnodes₁, nodes_getD_set_ne (fun h => hkni h.symm)]
    have hget_new : node_idx ≠ n →
        ((eng.expand rng node_idx state).1.nodes).getD n default = new_node := by
      intro hne'
      rw [hresult, nodes_getD_set_ne hne', ← hlen₁, nodes_getD_concat_self]
    have hget_self : ((eng.expand rng node_idx state).1.nodes).getD node_idx default =
        { node with untried_moves := untried', children := node.children ++ [n] } := by
      rw [hresult, nodes_getD_set_self (by simp [hlen₁]; omega), hgetD₁]
      simp [hlen₁]
    refine ⟨?_, ?_, ?_, ?_⟩
    · intro h
      rw [h] at hlen₃
      simp at hlen₃
    · by_cases h0 : node_idx = 0
      · rw [← h0] at hroot
        rw [← h0, hget_self]
        exact hroot
      · rw [hget 0 (fun h => h0 h.symm) (by omega)]
        exact hroot
    · intro k hk0 hk
      rw [hlen₃] at hk
      by_cases hkni : k = node_idx
      · subst hkni
        obtain ⟨p, hpe, hplt⟩ := hpar k hk0 hidx
        rw [hget_self]
        exact ⟨p, hpe, hplt⟩
      · by_cases hkn : k = n
        · subst hkn
          rw [hget_new (fun h => hkni (h.symm.trans rfl))]
          exact ⟨node_idx, rfl, by omega⟩
        · rw [hget k hkni (by omega)]
          exact hpar k hk0 (by omega)
    · intro k hk c hcmem
      rw [hlen₃] at hk ⊢
      by_cases hkni : k = node_idx
      · subst hkni
        rw [hget_self] at hcmem
        simp only [List.mem_append, List.mem_singleton] at hcmem
        rcases hcmem with h | h
        · have := hch k hidx c h
          omega
        · omega
      · by_cases hkn : k = n
        · subst hkn
          rw [hget_new (fun h => hkni (h.symm.trans rfl))] at hcmem
          simp [hnew] at hcmem
        · rw [hget k hkni (by omega)] at hcmem
          have := hch k (by omega) c hcmem
          omega

theorem arenaWF_backprop {eng : MCTSEngine} (hwf : ArenaWF eng.nodes)
    (node_idx : Nat) (winner : PlayerA) (winner_moves : List Nat) :
    ArenaWF ((eng.backpropagate node_idx winner winner_moves).nodes) := by
  obtain ⟨hlen, hpc⟩ := backpropagateNodes_structure winner winner_moves
    eng.nodes.length eng.nodes node_idx
  exact arenaWF_transfer hlen (fun k => (hpc k).1) (fun k => (hpc k).2) hwf

theorem reachable_arenaWF {eng : MCTSEngine} (h : ReachableEngine eng) :
    ArenaWF eng.nodes := by
  induction h with
  | init state player config => exact arenaWF_new state player config
  | expand eng rng node_idx state h hidx ih => exact arenaWF_expand ih rng node_idx state hidx
  | backprop eng node_idx winner moves h hidx ih => exact arenaWF_backprop ih node_idx winner moves

theorem parentChain_congr {nodes nodes' : List MCTSNode}
    (h : ∀ k, (nodes'.getD k default).parent = (nodes.getD k default).parent) :
    ∀ (fuel idx : Nat), parentChain nodes' fuel idx = parentChain nodes fuel idx := by
  intro fuel
  induction fuel with
  | zero => intro idx; rfl
  | succ fuel ih =>
    intro idx
    simp only [parentChain, h]
    cases hp : (nodes.getD idx default).parent with
    | none => rfl
    | some p => simp only [ih]

theorem parentChain_spec {nodes : List MCTSNode} (hwf : ArenaWF nodes) :
    ∀ (fuel idx : Nat), idx < nodes.length → idx < fuel →
      List.Chain' (· > ·) (parentChain nodes fuel idx) ∧
      (parentChain nodes fuel idx).getLast? = some 0 ∧
      ∀ x ∈ parentChain nodes fuel idx, x ≤ idx := by
  intro fuel
  induction fuel with
  | zero => intro idx h1 h2; omega
  | succ fuel ih =>
    intro idx h1 h2
    by_cases h0 : idx = 0
    · subst h0
      simp only [parentChain, hwf.2.1]
      exact ⟨List.chain'_singleton 0, rfl, by simp⟩
    · obtain ⟨p, hp, hplt⟩ := hwf.2.2.1 idx (by omega) h1
      simp only [parentChain, hp]
      have hpfuel : p < fuel := by omega
      have hplen : p < nodes.length := by omega
      obtain ⟨hchain, hlast, hmem⟩ := ih p hplen hpfuel
      cases fuel with
      | zero => omega
      | succ f =>
        have hdecomp : parentChain nodes (f + 1) p = p ::
            (match (nodes.getD p default).parent with
             | Option.none => []
             | some q => parentChain nodes f q) := rfl
        refine ⟨?_, ?_, ?_⟩
        · rw [hdecomp, List.chain'_cons]
          rw [hdecomp] at hchain
          exact ⟨hplt, hchain⟩
        · rw [hdecomp, List.getLast?_cons_cons]
          rw [hdecomp] at hlast
          exact hlast
        · intro x hx
          rcases List.mem_cons.mp hx with rfl | hx'
          · omega
          · have := hmem x hx'
            omega

theorem backprop_visits {w : PlayerA} {m : List Nat} :
    ∀ (fuel : Nat) (nodes : List MCTSNode), ArenaWF nodes →
      ∀ idx, idx < nodes.length → idx < fuel →
      ∀ k, k < nodes.length →
        ((backpropagateNodes w m fuel nodes idx).getD k default).visits =
          (nodes.getD k default).visits +
            (if k ∈ parentChain nodes fuel idx then 1 else 0) := by
  intro fuel
  induction fuel with
  | zero => intro nodes hwf idx h1 h2; omega
  | succ fuel ih =>
    intro nodes hwf idx h1 h2 k hk
    by_cases h0 : idx = 0
    · subst h0
      simp only [backpropagateNodes, parentChain, hwf.2.1]
      by_cases hk0 : k = 0
      · subst hk0
        rw [nodes_getD_set_self h1, backpropUpdate_visits]
        simp
      · rw [nodes_getD_set_ne (fun h => hk0 h.symm)]
        simp [hk0]
    · obtain ⟨p, hp, hplt⟩ := hwf.2.2.1 idx (by omega) h1
      simp only [backpropagateNodes, parentChain, hp]
      have hset_struct : ∀ j,
          (((nodes.set idx (backpropUpdate (nodes.getD idx default) w m)).getD j
            default).parent = (nodes.getD j default).parent) ∧
          (((nodes.set idx (backpropUpdate (nodes.getD idx default) w m)).getD j
            default).children = (nodes.getD j default).children) := by
        intro j
        by_cases hj : idx = j
        · subst hj
          rw [nodes_getD_set_self h1]
          exact ⟨backpropUpdate_parent _ _ _, backpropUpdate_children _ _ _⟩
        · rw [nodes_getD_set_ne hj]
          exact ⟨rfl, rfl⟩
      have hwf' : ArenaWF (nodes.set idx (backpropUpdate (nodes.getD idx default) w m)) :=
        arenaWF_transfer (by simp) (fun j => (hset_struct j).1)
          (fun j => (hset_struct j).2) hwf
      have hpfuel : p < fuel := by omega
      have hplen : p < nodes.length := by omega
      have hchain_eq : parentChain
          (nodes.set idx (backpropUpdate (nodes.getD idx default) w m)) fuel p =
          parentChain nodes fuel p :=
        parentChain_congr (fun j => (hset_struct j).1) fuel p
      have hih := ih (nodes.set idx (backpropUpdate (nodes.getD idx default) w m))
        hwf' p (by simpa using hplen) hpfuel k (by simpa using hk)
      rw [hchain_eq] at hih
      rw [hih]
      obtain ⟨_, _, hmem⟩ := parentChain_spec hwf fuel p hplen hpfuel
      by_cases hki : k = idx
      · subst hki
        rw [nodes_getD_set_self h1, backpropUpdate_visits]
        have hnot : k ∉ parentChain nodes fuel p := by
          intro hin
          have := hmem k hin
          omega
        rw [if_neg hnot, if_pos (List.mem_cons_self k _)]
        ring
      · rw [nodes_getD_set_ne (fun h => hki h.symm)]
        have hiff : (k ∈ idx :: parentChain nodes fuel p) ↔
            (k ∈ parentChain nodes fuel p) := by
          simp [List.mem_cons, hki]
        rw [if_congr hiff rfl rfl]

/-- **C10** (confirmed).  In every reachable MCTS engine the arena is
well-formed (root parentless, every other node's parent index strictly
smaller than its own, all child indices valid); consequently, from any
node the parent walk strictly decreases and terminates at the root, and
`backpropagate` increments the visit count of exactly the nodes on the
walk from the given node to the root, each by exactly 1. -/
theorem mcts_arena_parent_walk (eng : MCTSEngine) (h : ReachableEngine eng) :
    ArenaWF eng.nodes ∧
    ∀ idx, idx < eng.nodes.length →
      List.Chain' (· > ·) (parentChain eng.nodes eng.nodes.length idx) ∧
      (parentChain eng.nodes eng.nodes.length idx).getLast? = some 0 ∧
      ∀ (winner : PlayerA) (winner_moves : List Nat) (k : Nat),
        k < eng.nodes.length →
        (((eng.backpropagate idx winner winner_moves).nodes.getD k default)).visits =
          (eng.nodes.getD k default).visits +
            (if k ∈ parentChain eng.nodes eng.nodes.length idx then 1 else 0) := by
  have hwf := reachable_arenaWF h
  refine ⟨hwf, fun idx hidx => ?_⟩
  obtain ⟨hch, hl, _⟩ := parentChain_spec hwf eng.nodes.length idx hidx hidx
  exact ⟨hch, hl, fun w m k hk =>
    backprop_visits eng.nodes.length eng.nodes hwf idx hidx hidx k hk⟩

/-- Witness for C10: arena well-formedness and the exactly-one-visit
increment at the root of a freshly constructed engine. -/
theorem mcts_arena_parent_walk_witness :
    ArenaWF (MCTSEngine.new GameStateA.new PlayerA.ai
      ⟨1000000, 3 / 10, 0⟩).nodes ∧
    (((MCTSEngine.new GameStateA.new PlayerA.ai
        ⟨1000000, 3 / 10, 0⟩).backpropagate 0 PlayerA.ai []).nodes.getD 0
        default).visits =
      ((MCTSEngine.new GameStateA.new PlayerA.ai
        ⟨1000000, 3 / 10, 0⟩).nodes.getD 0 default).visits +
        (if 0 ∈ parentChain
            (MCTSEngine.new GameStateA.new PlayerA.ai ⟨1000000, 3 / 10, 0⟩).nodes
            (MCTSEngine.new GameStateA.new PlayerA.ai ⟨1000000, 3 / 10, 0⟩).nodes.length
            0 then 1 else 0) :=
  ⟨(mcts_arena_parent_walk _ (ReachableEngine.init GameStateA.new PlayerA.ai
      ⟨1000000, 3 / 10, 0⟩)).1,
   ((mcts_arena_parent_walk _ (ReachableEngine.init GameStateA.new PlayerA.ai
      ⟨1000000, 3 / 10, 0⟩)).2 0 (by simp [MCTSEngine.new])).2.2 PlayerA.ai [] 0
      (by simp [MCTSEngine.new])⟩

/-- **C9** (confirmed).  For every Game A state reachable from
`GameState::new` by `make_move` calls on empty cells, and every position
`p` of the empty-cell list, `empty_cells_map[empty_cells[p]] = p`: the
swap-removal in `make_move` preserves the inverse-map invariant. -/
theorem make_move_preserves_inverse_map (st : GameStateA) (h : ReachableA st) :
    ∀ p, p < st.empty_cells.length →
      st.empty_cells_map.getD (st.empty_cells.getD p 0) 0 = p :=
  (reachableA_invA h).2.2.2.1

/-- Witness for C9: the inverse-map identity at position 0 after one
concrete `make_move` on cell 0. -/
theorem make_move_preserves_inverse_map_witness :
    (make_move GameStateA.new 0 PlayerA.human).empty_cells_map.getD
      ((make_move GameStateA.new 0 PlayerA.human).empty_cells.getD 0 0) 0 = 0 :=
  make_move_preserves_inverse_map (make_move GameStateA.new 0 PlayerA.human)
    (ReachableA.step GameStateA.new 0 PlayerA.human ReachableA.init
      (by decide) (by decide)) 0 (by decide)

/-- **C6** counterexample.  At a child with `visits = 1`,
`rave_visits = 10` and parent visit count 1, the claim's blend
(`β = K/(K+visits)`) evaluates to `151/301`, but the code's selection
score is `76/151`: the code's β-denominator also contains
`0.1·rave_visits`. -/
theorem uct_score_beta_denominator_mismatch :
    specUctScore 300 1 c6child 1 ≠ uctScore 300 c6child (Real.log 1) := by
  unfold specUctScore uctScore c6child
  norm_num [Real.log_one, Real.sqrt_zero]

/-- **C6** (corrected).  Amended β: for every child with `visits > 0` and
`rave_visits > 0`, the selection score is
`(1-β)·(wins/visits) + β·(rave_wins/rave_visits) +
C·sqrt(ln(parent.visits)/visits)` with `C = 1`, `K = 300` and
`β = K/(K + visits + 0.1·rave_visits)`; and the selection loop returns a
child of maximal score (the first such, by strict improvement). -/
theorem uct_selection_blended_score (child : MCTSNode) (lv : ℝ)
    (nodes : List MCTSNode) (children : List Nat)
    (hv : 0 < child.visits) (hr : 0 < child.rave_visits) (hne : children ≠ []) :
    uctScore 300 child lv =
      (1 - 300 / (300 + (child.visits : ℝ) + (child.rave_visits : ℝ) * 0.1)) *
          ((child.wins : ℝ) / (child.visits : ℝ)) +
        (300 / (300 + (child.visits : ℝ) + (child.rave_visits : ℝ) * 0.1)) *
          ((child.rave_wins : ℝ) / (child.rave_visits : ℝ)) +
        1 * Real.sqrt (lv / (child.visits : ℝ)) ∧
    selectChild nodes lv children ∈ children ∧
    ∀ c ∈ children,
      uctScore 300 (nodes.getD c default) lv ≤
        uctScore 300 (nodes.getD (selectChild nodes lv children) default) lv := by
  have hv' : (0 : ℝ) < (child.visits : ℝ) := by exact_mod_cast hv
  have hr' : (0 : ℝ) < (child.rave_visits : ℝ) := by exact_mod_cast hr
  refine ⟨?_, ?_⟩
  · simp only [uctScore]
    rw [if_pos hv', if_pos hv', if_pos hr', if_pos hr']
  · cases children with
    | nil => exact absurd rfl hne
    | cons c rest =>
      have hfirst : selectChild nodes lv (c :: rest) =
          (rest.foldl (selectStep nodes lv)
            (c, some (uctScore 300 (nodes.getD c default) lv))).1 := by
        simp [selectChild, selectStep]
      obtain ⟨hmem, hge, hall⟩ := selectChild_fold_aux nodes lv rest c
        (uctScore 300 (nodes.getD c default) lv) rfl
      constructor
      · rw [hfirst]
        rcases hmem with h | h
        · rw [h]; exact List.mem_cons_self c rest
        · exact List.mem_cons_of_mem c h
      · intro x hx
        rw [hfirst]
        rcases List.mem_cons.mp hx with rfl | hx'
        · exact hge
        · exact hall x hx'

/-- Witness for C6 (amended): the blended-score identity and the argmax
property at a concrete child and child list. -/
theorem uct_selection_blended_score_witness :
    uctScore 300 c6child 0 =
      (1 - 300 / (300 + ((c6child.visits : ℚ) : ℝ) + ((c6child.rave_visits : ℚ) : ℝ) * 0.1)) *
          (((c6child.wins : ℚ) : ℝ) / ((c6child.visits : ℚ) : ℝ)) +
        (300 / (300 + ((c6child.visits : ℚ) : ℝ) + ((c6child.rave_visits : ℚ) : ℝ) * 0.1)) *
          (((c6child.rave_wins : ℚ) : ℝ) / ((c6child.rave_visits : ℚ) : ℝ)) +
        1 * Real.sqrt (0 / ((c6child.visits : ℚ) : ℝ)) ∧
    selectChild [c6child] 0 [0] ∈ [0] ∧
    ∀ c ∈ [0],
      uctScore 300 ([c6child].getD c default) 0 ≤
        uctScore 300 ([c6child].getD (selectChild [c6child] 0 [0]) default) 0 :=
  uct_selection_blended_score c6child 0 [c6child] [0]
    (by norm_num [c6child]) (by norm_num [c6child]) (by simp)

/-- **C8** counterexample.  `from_raw` performs no disjointness repair:
constructing a state with both raw pieces at `(0,0)` (a Game B state
"reachable by `from_raw` construction followed by any sequence of search
move applications" — here the empty sequence) yields equal, hence
non-disjoint, piece masks, refuting the claim as stated. -/
theorem from_raw_equal_positions_not_disjoint :
    (from_raw 0 0 0 0 []).player &&& (from_raw 0 0 0 0 []).ai ≠ 0 := by decide

/-- **C8** (corrected).  Amended with the initial-position proviso: if the
`from_raw` arguments place the two clamped pieces on distinct cells and no
destroyed pair names either piece cell, then every state reachable by
search move applications has pairwise disjoint `player`/`ai`/`destroyed`
masks with `player` and `ai` each a single bit among the 49 board cells. -/
theorem reachableB_masks_disjoint_single_bits (st : GameStateB)
    (h : ReachableB st) : InvB st :=
  (reachableB_inv_aux st h).1

/-- Witness for C8: the invariant holds at a concrete well-formed initial
state. -/
theorem reachableB_masks_disjoint_single_bits_witness :
    InvB (from_raw 0 0 6 6 []) :=
  reachableB_masks_disjoint_single_bits _
    (ReachableB.init 0 0 6 6 [] ⟨by decide, by simp⟩)

/-- **C5** (code bug).  `tenFreeCellsState` has exactly 10 free board
cells, so by the claim (and the source's own comment "not in
zugzwang-prone endgame (>10 free cells)") no null-move probe should be
performed; but the guard counts `count_ones(!blocked)`, which includes the
15 always-free bits 49–63 of the 64-bit word, so it evaluates free_cells
= 25 and the probe is entered at depth 3. -/
theorem null_move_guard_ignores_board_free_cells :
    free_board_cells tenFreeCellsState = 10 ∧
    null_move_allowed tenFreeCellsState 3 true = true := by decide

end Move37
